import Mathlib

/-!
Formalisation of the AmiFUSE icon-conversion core (icon_parser.py,
resource_fork.py, icon_cache.py) as a shallow embedding in Lean 4.

Byte strings are modelled as `List Nat` (each element a byte value);
Python `struct.unpack` big-endian reads become arithmetic on list
elements.  Loops are modelled as structurally recursive functions; where
the Python loop's termination argument is not structural, the function
takes an explicit fuel argument whose value, supplied at the unique call
site, is a proven-sufficient bound on the number of iterations of the
source loop (so the embedding computes the same result as the source).
Python floats (aspect ratios, cache timestamps) are modelled as `Rat`.
-/

namespace AmiFuse

/-- Byte at index `i` of a byte string; all real accesses in the source are
in bounds, so the default value 0 is never observable there. -/
def byteAt (d : List Nat) (i : Nat) : Nat := d.getD i 0

/-- Big-endian 16-bit read, `struct.unpack(">H", data[i:i+2])`. -/
def readU16 (d : List Nat) (i : Nat) : Nat := 256 * byteAt d i + byteAt d (i + 1)

/-- Big-endian 32-bit read, `struct.unpack(">I", data[i:i+4])`. -/
def readU32 (d : List Nat) (i : Nat) : Nat := 65536 * readU16 d i + readU16 d (i + 2)

/-- Big-endian signed 16-bit read, `struct.unpack(">h", data[i:i+2])`. -/
def readI16 (d : List Nat) (i : Nat) : Int :=
  let v := readU16 d i
  if v ≥ 32768 then (v : Int) - 65536 else (v : Int)

/-- Python slice `d[a:b]` (for the in-range uses appearing in the source). -/
def sliceL (d : List Nat) (a b : Nat) : List Nat := (d.drop a).take (b - a)

/-- Big-endian 4-byte encoding of `n`, `struct.pack(">I", n)` for `n < 2^32`. -/
def packU32 (n : Nat) : List Nat :=
  [n / 16777216 % 256, n / 65536 % 256, n / 256 % 256, n % 256]

/-- Big-endian 2-byte encoding of `n`, `struct.pack(">H", n)` for `n < 2^16`. -/
def packU16 (n : Nat) : List Nat := [n / 256 % 256, n % 256]

/-- Big-endian signed 2-byte encoding, `struct.pack(">h", i)`. -/
def packI16 (i : Int) : List Nat := packU16 ((i % 65536).toNat)

/-! ## Palettes (module-level constants of icon_parser.py) -/

def WB13_PALETTE : List (Nat × Nat × Nat) :=
  [(0x00, 0x55, 0xAA), (0xFF, 0xFF, 0xFF), (0x00, 0x00, 0x22), (0xFF, 0x88, 0x00),
   (0x66, 0x66, 0x66), (0xEE, 0xEE, 0xEE), (0xDD, 0x77, 0x44), (0xFF, 0xEE, 0x11)]

def WB20_PALETTE : List (Nat × Nat × Nat) :=
  [(0xAA, 0xAA, 0xAA), (0x00, 0x00, 0x00), (0xFF, 0xFF, 0xFF), (0x66, 0x88, 0xBB),
   (0xEE, 0x44, 0x44), (0x55, 0xDD, 0x54), (0x00, 0x44, 0xDD), (0xEE, 0x99, 0x00)]

def PALETTE_16 : List (Nat × Nat × Nat) :=
  WB20_PALETTE ++
  [(0x00, 0x00, 0x00), (0xFF, 0x00, 0x00), (0x00, 0xFF, 0x00), (0xFF, 0xFF, 0x00),
   (0x00, 0x00, 0xFF), (0xFF, 0x00, 0xFF), (0x00, 0xFF, 0xFF), (0xFF, 0xFF, 0xFF)]

def WORKBENCH_PALETTE_4 : List (Nat × Nat × Nat) := WB13_PALETTE.take 4

def MAGICWB_PALETTE_8 : List (Nat × Nat × Nat) := WB20_PALETTE

/-! ## Canonical bitmap representation -/

inductive IconVariant where
  | traditional | newicons | glowicons
  deriving DecidableEq, Repr

/-- Inner image dict (`width`, `height`, `rgba`) returned by the chunk
and NewIcons decoders. -/
structure Img where
  width : Nat
  height : Nat
  rgba : List Nat
  deriving Repr, DecidableEq

/-- The dict returned by `IconParser.parse` on success. -/
structure Bitmap where
  width : Nat
  height : Nat
  rgba : List Nat
  fmt : IconVariant
  aspect : Rat
  deriving Repr, DecidableEq

/-- The Python idiom `rgba = bytearray(total); for i in range(count):
rgba[i*4+0..3] = quad(i)`: a zero buffer of length `total`, written four
bytes at a time by a loop over `count` pixel indices (`List.set` is a
no-op out of bounds, matching that all source writes are in bounds). -/
def mkRgbaInto (total count : Nat) (f : Nat → Nat × Nat × Nat × Nat) : List Nat :=
  (List.range count).foldl
    (fun acc i =>
      let q := f i
      ((((acc.set (i * 4) q.1).set (i * 4 + 1) q.2.1).set
          (i * 4 + 2) q.2.2.1).set (i * 4 + 3) q.2.2.2))
    (List.replicate total 0)

/-! ## Byte-oriented RLE (`IconParser._unpack_rle_8bit`) -/

/-- One `while` loop of `_unpack_rle_8bit`.  Each source iteration advances
`i` by at least one, so `data.length + 1` units of fuel always cover the
whole loop. -/
def rle8Loop (data : List Nat) (expected : Nat) : Nat → Nat → List Nat → List Nat
  | 0, _, acc => acc
  | fuel + 1, i, acc =>
    if i < data.length ∧ acc.length < expected then
      if i + 2 > data.length then acc
      else
        let n := byteAt data i
        if n < 128 then
          -- literal run: copy n+1 bytes
          rle8Loop data expected fuel (i + 1 + (n + 1)) (acc ++ (data.drop (i + 1)).take (n + 1))
        else
          -- replicate run: repeat next byte (256-n)+1 times
          if i + 1 < data.length then
            rle8Loop data expected fuel (i + 1 + 1)
              (acc ++ List.replicate (256 - n + 1) (byteAt data (i + 1)))
          else
            rle8Loop data expected fuel (i + 1) acc
    else acc

/-- `IconParser._unpack_rle_8bit(data, expected_size)`. -/
def unpackRle8bit (data : List Nat) (expected : Nat) : List Nat :=
  (rle8Loop data expected (data.length + 1) 0 []).take expected

/-! ## Bit-packed RLE (`IconParser._unpack_rle_bitpacked`) -/

/-- Cursor state of the nested `read_bits` closure: accumulated bit buffer,
number of valid bits in it, and the byte position in the input. -/
structure BitState where
  bitBuffer : Nat
  bitsInBuffer : Nat
  dataPos : Nat
  deriving Repr

/-- The accumulation `while` of `read_bits`: pull whole bytes until
`num` bits are buffered.  The returned flag is `false` on input
exhaustion (Python's `return -1`); the state is then the one reached by
the failed fill, exactly as with the source's `nonlocal` cursor.  Each
iteration adds 8 bits, so `num / 8 + 1` units of fuel suffice. -/
def rbFill (data : List Nat) (num : Nat) : Nat → BitState → BitState × Bool
  | 0, st => (st, true)
  | fuel + 1, st =>
    if st.bitsInBuffer < num then
      if st.dataPos ≥ data.length then (st, false)
      else
        rbFill data num fuel
          { bitBuffer := (st.bitBuffer <<< 8) ||| byteAt data st.dataPos,
            bitsInBuffer := st.bitsInBuffer + 8,
            dataPos := st.dataPos + 1 }
    else (st, true)

/-- `read_bits(num)`: returns the extracted value (or `none` for Python's
`-1`) together with the updated cursor. -/
def readBits (data : List Nat) (num : Nat) (st : BitState) : Option Nat × BitState :=
  match rbFill data num (num / 8 + 1) st with
  | (st', false) => (none, st')
  | (st', true) =>
      let bits := st'.bitsInBuffer - num
      (some ((st'.bitBuffer >>> bits) &&& ((1 <<< num) - 1)),
       { st' with bitsInBuffer := bits })

/-- Literal run of the bit-packed decoder: up to `count` values of
`depth` bits each, stopping at the expected output size or at input
exhaustion (Python's inner `for _ in range(count)` with its two
`break`s). -/
def bpLiteral (data : List Nat) (expected depth : Nat) :
    Nat → BitState → List Nat → BitState × List Nat
  | 0, st, acc => (st, acc)
  | count + 1, st, acc =>
    if acc.length ≥ expected then (st, acc)
    else
      match readBits data depth st with
      | (none, st') => (st', acc)
      | (some px, st') => bpLiteral data expected depth count st' (acc ++ [px])

/-- Main `while` of `_unpack_rle_bitpacked`.  Every source iteration either
appends at least one output value (at most `expected` times) or exhausts
the input and stops, so `expected + data.length + 2` units of fuel always
cover the loop. -/
def bpLoop (data : List Nat) (expected depth : Nat) :
    Nat → BitState → List Nat → List Nat
  | 0, _, acc => acc
  | fuel + 1, st, acc =>
    if acc.length < expected ∧ st.dataPos < data.length then
      match readBits data 8 st with
      | (none, _) => acc
      | (some control, st1) =>
        if control ≥ 128 then
          -- sign-extended control is negative: repeat run of (-control)+1
          match readBits data depth st1 with
          | (none, _) => acc
          | (some px, st2) =>
              bpLoop data expected depth fuel st2
                (acc ++ List.replicate (min (257 - control) (expected - acc.length)) px)
        else
          -- literal run of control+1 values
          let r := bpLiteral data expected depth (control + 1) st1 acc
          bpLoop data expected depth fuel r.1 r.2
    else acc

/-- `IconParser._unpack_rle_bitpacked(data, expected_pixels, depth)`. -/
def unpackRleBitpacked (data : List Nat) (expected depth : Nat) : List Nat :=
  if depth = 8 then unpackRle8bit data expected
  else bpLoop data expected depth (expected + data.length + 2) ⟨0, 0, 0⟩ []

/-! ## GlowIcons (IFF FORM ICON) -/

/-- `IconParser._parse_face_chunk` result. -/
structure FaceInfo where
  width : Nat
  height : Nat
  flags : Nat
  aspect : Nat
  deriving Repr

/-- `IconParser._parse_face_chunk(data)`. -/
def parseFaceChunk (d : List Nat) : Option FaceInfo :=
  if d.length < 4 then none
  else some ⟨byteAt d 0 + 1, byteAt d 1 + 1, byteAt d 2, byteAt d 3⟩

/-- The palette-triple loop of `_parse_imag_chunk`:
`for i in range(0, min(len(cm), nc*3), 3): if i+2 < len(cm): append`.
Structural recursion on the remaining iteration count `(stop+2)/3 - done`
is packaged as a count-down on iterations left. -/
def cmTriples (cm : List Nat) : Nat → Nat → List (Nat × Nat × Nat)
  | 0, _ => []
  | left + 1, i =>
    if i + 2 < cm.length then
      (byteAt cm i, byteAt cm (i + 1), byteAt cm (i + 2)) :: cmTriples cm left (i + 3)
    else
      cmTriples cm left (i + 3)

/-- Parse the RGB palette exactly as the source's range-step-3 loop does. -/
def parsePalette (cm : List Nat) (numColors : Nat) : List (Nat × Nat × Nat) :=
  cmTriples cm ((min cm.length (numColors * 3) + 2) / 3) 0

/-- `IconParser._parse_imag_chunk(data, face_info)`. -/
def parseImagChunk (d : List Nat) (face : Option FaceInfo) : Option Img :=
  if d.length < 10 then none
  else
    match face with
    | none => none
    | some f =>
      if f.width = 0 ∨ f.height = 0 then none
      else
        let width := f.width
        let height := f.height
        let transparentColor := byteAt d 0
        let numColors := byteAt d 1 + 1
        let flags := byteAt d 2
        let imageCompressed := byteAt d 3 ≠ 0
        let colormapCompressed := byteAt d 4 ≠ 0
        let depth := byteAt d 5
        let imageSize := readU16 d 6 + 1
        let colormapSize := readU16 d 8 + 1
        let hasTransparency := Nat.testBit flags 0
        let expectedPixels := width * height
        -- image data first
        let rawImage :=
          if imageSize > 1 ∧ 10 + imageSize ≤ d.length then sliceL d 10 (10 + imageSize)
          else d.drop 10
        let pos1 := if imageSize > 1 ∧ 10 + imageSize ≤ d.length then 10 + imageSize else d.length
        -- colormap second
        let palette : Option (List (Nat × Nat × Nat)) :=
          if colormapSize > 1 ∧ pos1 + colormapSize ≤ d.length then
            let rawColormap := sliceL d pos1 (pos1 + colormapSize)
            let colormapData :=
              if colormapCompressed then unpackRle8bit rawColormap (numColors * 3)
              else rawColormap
            some (parsePalette colormapData numColors)
          else none
        let imageData :=
          if imageCompressed then unpackRleBitpacked rawImage expectedPixels depth
          else rawImage
        if imageData.length < expectedPixels then none
        else
          let pal :=
            match palette with
            | none => if numColors ≤ 4 then WORKBENCH_PALETTE_4
                      else if numColors ≤ 8 then MAGICWB_PALETTE_8
                      else PALETTE_16
            | some p =>
              if p.length = 0 then
                if numColors ≤ 4 then WORKBENCH_PALETTE_4
                else if numColors ≤ 8 then MAGICWB_PALETTE_8
                else PALETTE_16
              else p
          let rgba := mkRgbaInto (width * height * 4) (width * height) (fun i =>
            let idx := if i < imageData.length then byteAt imageData i else 0
            let c := if idx < pal.length then pal.getD idx (0, 0, 0) else (0, 0, 0)
            let a := if hasTransparency ∧ idx = transparentColor then 0 else 255
            (c.1, c.2.1, c.2.2, a))
          some ⟨width, height, rgba⟩

/-- `IconParser._parse_argb_chunk(data)`. -/
def parseArgbChunk (d : List Nat) : Option Img :=
  if d.length < 8 then none
  else
    let width := readU16 d 0
    let height := readU16 d 2
    if width = 0 ∨ height = 0 then none
    else
      let expectedSize := width * height * 4
      let pixelData := d.drop 4
      if pixelData.length < expectedSize then none
      else
        let rgba := mkRgbaInto expectedSize (width * height) (fun i =>
          (byteAt pixelData (i * 4 + 1), byteAt pixelData (i * 4 + 2),
           byteAt pixelData (i * 4 + 3), byteAt pixelData (i * 4)))
        some ⟨width, height, rgba⟩

/-- The chunk `while` of `_parse_iff_icon`.  `limit` is
`min(len(data), form_size + 8)`; each iteration advances `pos` by at
least 8, so `limit / 8 + 1` units of fuel always cover the loop. -/
def glowChunkLoop (d : List Nat) (limit : Nat) :
    Nat → Nat → Option FaceInfo → List Img → List Img
  | 0, _, _, images => images
  | fuel + 1, pos, face, images =>
    if pos < limit then
      if pos + 8 > d.length then images
      else
        let chunkId := sliceL d pos (pos + 4)
        let chunkSize := readU32 d (pos + 4)
        let chunkData := sliceL d (pos + 8) (pos + 8 + chunkSize)
        let face' := if chunkId = [70, 65, 67, 69] then parseFaceChunk chunkData else face
        let images' :=
          if chunkId = [73, 77, 65, 71] then
            match parseImagChunk chunkData face with
            | some img => images ++ [img]
            | none => images
          else if chunkId = [65, 82, 71, 66] then
            match parseArgbChunk chunkData with
            | some img => images ++ [img]
            | none => images
          else images
        let pos' := pos + 8 + chunkSize + (if chunkSize % 2 = 1 then 1 else 0)
        glowChunkLoop d limit fuel pos' face' images'
    else images

/-- `IconParser._parse_iff_icon(data)`. -/
def parseIffIcon (d : List Nat) : Option Bitmap :=
  if d.length < 12 then none
  else
    let formSize := readU32 d 4
    let limit := min d.length (formSize + 8)
    let images := glowChunkLoop d limit (limit / 8 + 1) 12 none []
    match images.head? with
    | none => none
    | some img =>
      some { width := img.width, height := img.height, rgba := img.rgba,
             fmt := .glowicons, aspect := 1 }

/-- The FORM-search loop of `_try_glowicons`: `data.find(b"FORM", pos)`
followed by the header-room and type checks, fused into a scan that
visits every candidate position in increasing order (which is exactly
what repeated `find` from `form_pos + 1` does).  Fuel
`d.length + 1 - pos` bounds the number of positions scanned. -/
def glowScan (d : List Nat) : Nat → Nat → Option Nat
  | 0, _ => none
  | fuel + 1, pos =>
    if pos + 4 > d.length then none
    else if sliceL d pos (pos + 4) = [70, 79, 82, 77] then
      if d.length < pos + 12 then none
      else if sliceL d (pos + 8) (pos + 12) = [73, 67, 79, 78] then some pos
      else glowScan d fuel (pos + 1)
    else glowScan d fuel (pos + 1)

/-- `IconParser._try_glowicons(data)` (the `try/except` never fires: the
chunk parsers are total). -/
def tryGlowicons (d : List Nat) : Option Bitmap :=
  match glowScan d (d.length + 1) 0 with
  | none => none
  | some p => parseIffIcon (d.drop p)

/-! ## ToolTypes (`IconParser._parse_tooltypes`)

This helper is the only routine of the parser whose body is not protected
by a `try/except`, and `struct.unpack` raises on a short slice; it is
therefore embedded in `Except Unit`, with each unpack modelled as a
checked read that fails exactly when the source would raise. -/

/-- `struct.unpack(">I", d[i:i+4])`: raises (`error`) iff the slice is short. -/
def unpackU32E (d : List Nat) (i : Nat) : Except Unit Nat :=
  if i + 4 ≤ d.length then .ok (readU32 d i) else .error ()

/-- `struct.unpack(">H", d[i:i+2])`. -/
def unpackU16E (d : List Nat) (i : Nat) : Except Unit Nat :=
  if i + 2 ≤ d.length then .ok (readU16 d i) else .error ()

/-- `struct.unpack(">h", d[i:i+2])`. -/
def unpackI16E (d : List Nat) (i : Nat) : Except Unit Int :=
  if i + 2 ≤ d.length then .ok (readI16 d i) else .error ()

/-- `bytes.find(value, pos)` returning `none` for Python's `-1`. -/
def findByteFrom (d : List Nat) (v : Nat) : Nat → Nat → Option Nat
  | 0, _ => none
  | fuel + 1, pos =>
    if pos ≥ d.length then none
    else if byteAt d pos = v then some pos
    else findByteFrom d v fuel (pos + 1)

/-- `str.rstrip('\x00')` on a latin-1-decoded byte string. -/
def rstripNulls (l : List Nat) : List Nat :=
  (l.reverse.dropWhile (fun c => c = 0)).reverse

/-- The entry `while` of `_parse_tooltypes`: each iteration consumes 4
from `remaining`, so `remaining.toNat + 1` units of fuel cover it. -/
def ttLoop (d : List Nat) : Nat → Nat → Int → List (List Nat) →
    Except Unit (List (List Nat))
  | 0, _, _, acc => .ok acc
  | fuel + 1, pos, remaining, acc =>
    if remaining > 0 ∧ pos + 4 ≤ d.length then do
      let strLen ← unpackU32E d pos
      let pos := pos + 4
      let remaining := remaining - 4
      if strLen > 0 ∧ pos + strLen ≤ d.length then
        -- latin-1 decoding never fails, so the source's except is dead
        let ttStr := rstripNulls (sliceL d pos (pos + strLen))
        ttLoop d fuel (pos + strLen) remaining
          (if ttStr ≠ [] then acc ++ [ttStr] else acc)
      else if strLen = 0 then ttLoop d fuel pos remaining acc
      else .ok acc
    else .ok acc

/-- `IconParser._parse_tooltypes(data)`: the ToolTypes strings as
latin-1 byte lists (trailing NULs stripped, empties dropped). -/
def tooltypesE (d : List Nat) : Except Unit (List (List Nat)) :=
  if d.length < 78 then .ok []
  else do
    let doDrawerData ← unpackU32E d 66
    let pos0 := if doDrawerData ≠ 0 then 78 + 56 else 78
    if pos0 + 20 > d.length then .ok []
    else do
      let img1W ← unpackI16E d (pos0 + 4)
      let img1H ← unpackI16E d (pos0 + 6)
      let img1D ← unpackI16E d (pos0 + 8)
      if img1W ≤ 0 ∨ img1H ≤ 0 ∨ img1D ≤ 0 then .ok []
      else do
        let rowWords1 := (img1W.toNat + 15) / 16
        let pos1 := pos0 + 20 + img1D.toNat * img1H.toNat * rowWords1 * 2
        let gadgetFlags ← unpackU16E d 16
        let hasSecondImage := Nat.testBit gadgetFlags 1
        let pos2 ←
          if hasSecondImage ∧ pos1 + 20 ≤ d.length then do
            let img2W ← unpackI16E d (pos1 + 4)
            let img2H ← unpackI16E d (pos1 + 6)
            let img2D ← unpackI16E d (pos1 + 8)
            if img2W > 0 ∧ img2H > 0 ∧ img2D > 0 then
              let rowWords2 := (img2W.toNat + 15) / 16
              pure (pos1 + 20 + img2D.toNat * img2H.toNat * rowWords2 * 2)
            else pure pos1
          else pure pos1
        let defaultToolPtr ← unpackU32E d 50
        match (if defaultToolPtr ≠ 0 then
                 (findByteFrom d 0 (d.length + 1) pos2).map (· + 1)
               else some pos2) with
        | none => .ok []
        | some pos3 => do
          let ttPtr ← unpackU32E d 54
          if ttPtr = 0 then .ok []
          else if pos3 + 4 > d.length then .ok []
          else do
            let totalLen ← unpackU32E d pos3
            ttLoop d (((totalLen : Int) - 4).toNat + 1) (pos3 + 4)
              ((totalLen : Int) - 4) []

/-! ## NewIcons -/

/-- The `"*** DON'T EDIT THE FOLLOWING LINES!! ***"` marker as latin-1
byte values. -/
def NEWICON_MARKER : List Nat :=
  [42, 42, 42, 32, 68, 79, 78, 39, 84, 32, 69, 68, 73, 84, 32, 84, 72, 69, 32,
   70, 79, 76, 76, 79, 87, 73, 78, 71, 32, 76, 73, 78, 69, 83, 33, 33, 32, 42, 42, 42]

/-- Python `str.isspace` for code points below 256 (the default
`str.strip` character class). -/
def isPySpace (c : Nat) : Bool :=
  c = 9 ∨ c = 10 ∨ c = 11 ∨ c = 12 ∨ c = 13 ∨ c = 28 ∨ c = 29 ∨ c = 30 ∨
  c = 31 ∨ c = 32 ∨ c = 133 ∨ c = 160

/-- Python `str.strip()`. -/
def pyStrip (l : List Nat) : List Nat :=
  ((l.dropWhile (fun c => isPySpace c)).reverse.dropWhile (fun c => isPySpace c)).reverse

/-- State of the `IM1=`/`IM2=` collection loop of `_try_newicons`:
the two line lists plus which of them `current_list` refers to. -/
structure ImAcc where
  im1 : List (List Nat)
  im2 : List (List Nat)
  cur : Option Bool

/-- One iteration of the collection loop. -/
def collectImStep (acc : ImAcc) (tt : List Nat) : ImAcc :=
  if [73, 77, 49, 61].isPrefixOf tt then ⟨acc.im1 ++ [tt.drop 4], acc.im2, some true⟩
  else if [73, 77, 50, 61].isPrefixOf tt then ⟨acc.im1, acc.im2 ++ [tt.drop 4], some false⟩
  else if acc.cur ≠ none ∧ ¬([42, 42, 42].isPrefixOf tt) ∧ pyStrip tt ≠ [] then
    match acc.cur with
    | some true => ⟨acc.im1 ++ [tt], acc.im2, acc.cur⟩
    | some false => ⟨acc.im1, acc.im2 ++ [tt], acc.cur⟩
    | none => acc
  else acc

/-- Decode loop of `_decode_newicons_image` (the custom 7-bit alphabet
with run markers).  Each iteration advances `i` by 1 or 2, so
`s.length + 1` units of fuel cover it. -/
def niDecodeLoop (s : List Nat) : Nat → Nat → List Nat → List Nat
  | 0, _, acc => acc
  | fuel + 1, i, acc =>
    if i < s.length then
      let c := byteAt s i
      if 0x20 ≤ c ∧ c ≤ 0x6F then niDecodeLoop s fuel (i + 1) (acc ++ [c - 0x20])
      else if 0xA1 ≤ c ∧ c ≤ 0xD0 then niDecodeLoop s fuel (i + 1) (acc ++ [c - 0xA1 + 0x50])
      else if 0xD1 ≤ c ∧ c ≤ 0xFF then
        -- run marker: repeat the next decoded value (c - 0xD0) times
        if i + 1 < s.length then
          let nc := byteAt s (i + 1)
          let v := if 0x20 ≤ nc ∧ nc ≤ 0x6F then nc - 0x20
                   else if 0xA1 ≤ nc ∧ nc ≤ 0xD0 then nc - 0xA1 + 0x50
                   else 0
          niDecodeLoop s fuel (i + 2) (acc ++ List.replicate (c - 0xD0) v)
        else niDecodeLoop s fuel (i + 2) acc
      else niDecodeLoop s fuel (i + 1) acc
    else acc

/-- Palette loop of `_decode_newicons_image`: `num_colors` iterations,
each reading a 6-bit RGB triple and scaling it to 8 bits. -/
def niPaletteLoop (decoded : List Nat) :
    Nat → Nat → List (Nat × Nat × Nat) → List (Nat × Nat × Nat) × Nat
  | 0, pos, acc => (acc, pos)
  | n + 1, pos, acc =>
    if pos + 2 ≥ decoded.length then (acc, pos)
    else
      let r0 := byteAt decoded pos * 4
      let g0 := byteAt decoded (pos + 1) * 4
      let b0 := byteAt decoded (pos + 2) * 4
      niPaletteLoop decoded n (pos + 3)
        (acc ++ [(min 255 (r0 + r0 / 64), min 255 (g0 + g0 / 64), min 255 (b0 + b0 / 64))])

/-- `IconParser._decode_newicons_image(data)`.  The source's enclosing
`try/except` catches exactly one reachable exception: the IndexError of
the two-byte colour-count read, modelled by the `Option` below. -/
def decodeNewicons (s : List Nat) : Option Img :=
  if s.length < 5 then none
  else
    let decoded := niDecodeLoop s (s.length + 1) 0 []
    if decoded.length < 4 then none
    else
      let transparent := byteAt decoded 0 = 0
      let width := byteAt decoded 1
      let height := byteAt decoded 2
      let cc : Option (Nat × Nat) :=
        if byteAt decoded 3 = 0 then
          if 4 < decoded.length then some (byteAt decoded 4, 5) else none
        else some (byteAt decoded 3, 4)
      match cc with
      | none => none
      | some (nc0, pos) =>
        let numColors := if nc0 = 0 then 256 else nc0
        if width = 0 ∨ height = 0 ∨ width > 640 ∨ height > 512 then none
        else
          let pr := niPaletteLoop decoded numColors pos []
          let palette := pr.1
          let pixels := decoded.drop pr.2
          let rgba := mkRgbaInto (width * height * 4) (width * height) (fun i =>
            let idx := if i < pixels.length then byteAt pixels i else 0
            let c := if idx < palette.length then palette.getD idx (0, 0, 0) else (0, 0, 0)
            let a := if transparent ∧ idx = 0 then 0 else 255
            (c.1, c.2.1, c.2.2, a))
          some ⟨width, height, rgba⟩

/-- The pure part of `IconParser._try_newicons` (everything after the
ToolTypes table has been obtained). -/
def newiconsFromTooltypes (tts : List (List Nat)) : Option Bitmap :=
  if tts = [] then none
  else
    let foundMarker := tts.any (fun tt => pyStrip tt == NEWICON_MARKER)
    let hasIm1 := tts.any (fun tt => [73, 77, 49, 61].isPrefixOf tt)
    if ¬foundMarker ∧ ¬hasIm1 then none
    else
      let acc := tts.foldl collectImStep ⟨[], [], none⟩
      if acc.im1 = [] then none
      else
        match decodeNewicons acc.im1.flatten with
        | none => none
        | some img => some ⟨img.width, img.height, img.rgba, .newicons, 1⟩

/-- `IconParser._try_newicons(data)`. -/
def tryNewiconsE (d : List Nat) : Except Unit (Option Bitmap) :=
  match tooltypesE d with
  | .error e => .error e
  | .ok tts => .ok (newiconsFromTooltypes tts)

/-! ## Traditional icons -/

/-- One pixel of `IconParser._planar_to_chunky`: OR together, for each
plane, the bitmap bit if the plane is picked, else the plane-on/off
constant bit. -/
def planarPixel (data : List Nat) (rowBytes planeSize depth planePick planeOnOff x y : Nat) :
    Nat :=
  (List.range depth).foldl
    (fun pixel plane =>
      if Nat.testBit planePick plane then
        if plane * planeSize + (x / 8 + y * rowBytes) < data.length ∧
            Nat.testBit (byteAt data (plane * planeSize + (x / 8 + y * rowBytes))) (7 - x % 8) then
          pixel ||| (1 <<< plane)
        else pixel
      else if Nat.testBit planeOnOff plane then pixel ||| (1 <<< plane)
      else pixel)
    0

/-- `IconParser._planar_to_chunky(data, width, height, depth, plane_pick,
plane_on_off)`: row-major pixel indices. -/
def planarToChunky (data : List Nat) (width height depth planePick planeOnOff : Nat) :
    List Nat :=
  let rowBytes := (width + 15) / 16 * 2
  let planeSize := rowBytes * height
  (List.range height).flatMap (fun y =>
    (List.range width).map (fun x =>
      planarPixel data rowBytes planeSize depth planePick planeOnOff x y))

/-- Seed step of `IconParser._find_edge_background`: mark-and-enqueue a
border cell if it has colour 0 and is not yet marked.  The state is
(`is_edge`, queue of coordinates). -/
def floodSeed (pixels : List Nat) (w : Nat) (c : Nat × Nat)
    (st : List Bool × List (Nat × Nat)) : List Bool × List (Nat × Nat) :=
  let idx := c.2 * w + c.1
  if pixels.get? idx = some 0 ∧ st.1.get? idx = some false then
    (st.1.set idx true, st.2 ++ [c])
  else st

/-- The two seeding loops of `_find_edge_background` (top and bottom per
column, then left and right per row) run on the all-false grid. -/
def floodSeeds (pixels : List Nat) (w h : Nat) : List Bool × List (Nat × Nat) :=
  let st1 := (List.range w).foldl
    (fun st x => floodSeed pixels w (x, h - 1) (floodSeed pixels w (x, 0) st))
    (List.replicate pixels.length false, [])
  (List.range h).foldl
    (fun st y => floodSeed pixels w (w - 1, y) (floodSeed pixels w (0, y) st))
    st1

/-- Visit one of the four neighbours of a dequeued cell: if in bounds,
colour 0 and unmarked, mark it and append it to the queue. -/
def floodVisit (pixels : List Nat) (w h : Nat) (x y : Nat) (d : Int × Int)
    (st : List Bool × List (Nat × Nat)) : List Bool × List (Nat × Nat) :=
  let nx : Int := (x : Int) + d.1
  let ny : Int := (y : Int) + d.2
  if 0 ≤ nx ∧ nx < (w : Int) ∧ 0 ≤ ny ∧ ny < (h : Int) then
    let nidx := ny.toNat * w + nx.toNat
    if pixels.get? nidx = some 0 ∧ st.1.get? nidx = some false then
      (st.1.set nidx true, st.2 ++ [(nx.toNat, ny.toNat)])
    else st
  else st

/-- The BFS `while queue` of `_find_edge_background`.  Each iteration
pops one cell and can only mark unmarked cells, so
`2 * (number of unmarked cells) + (queue length) + 1` units of fuel
always cover the loop (proved as `floodLoop_spec` below). -/
def floodLoop (pixels : List Nat) (w h : Nat) :
    Nat → List Bool × List (Nat × Nat) → List Bool
  | 0, st => st.1
  | fuel + 1, st =>
    match st.2 with
    | [] => st.1
    | c :: rest =>
      floodLoop pixels w h fuel
        (([((-1 : Int), (0 : Int)), (1, 0), (0, -1), (0, 1)]).foldl
          (fun s d => floodVisit pixels w h c.1 c.2 d s) (st.1, rest))

/-- `IconParser._find_edge_background(pixels, width, height)`. -/
def findEdgeBackground (pixels : List Nat) (w h : Nat) : List Bool :=
  let st := floodSeeds pixels w h
  floodLoop pixels w h (2 * st.1.length + st.2.length + 1) st

/-- Everything `_try_traditional` computes before converting to RGBA. -/
structure TradParsed where
  width : Nat
  height : Nat
  depth : Nat
  isWb2 : Bool
  pixels : List Nat
  deriving Repr, DecidableEq

/-- Header/guard part of `IconParser._try_traditional(data)`: magic-sized
header reads, gadget- and image-dimension validation, bitmap-size check,
and planar-to-chunky conversion.  All reads are in bounds when reached,
so the source's `try/except` never fires here. -/
def tradRaw (d : List Nat) : Option TradParsed :=
  if d.length < 78 then none
  else
    let gdWidth := readI16 d 12
    let gdHeight := readI16 d 14
    let userData := readU32 d 44
    if gdWidth ≤ 0 ∨ gdHeight ≤ 0 ∨ gdWidth > 640 ∨ gdHeight > 512 then none
    else
      let doDrawerData := readU32 d 66
      let pos := if doDrawerData ≠ 0 then 78 + 56 else 78
      if pos + 20 > d.length then none
      else
        let imgWidth := readI16 d (pos + 4)
        let imgHeight := readI16 d (pos + 6)
        let imgDepth := readI16 d (pos + 8)
        let planePick := byteAt d (pos + 14)
        let planeOnOff := byteAt d (pos + 15)
        if imgWidth ≤ 0 ∨ imgHeight ≤ 0 ∨ imgDepth ≤ 0 then none
        else if imgWidth > 640 ∨ imgHeight > 512 ∨ imgDepth > 8 then none
        else
          let w := imgWidth.toNat
          let h := imgHeight.toNat
          let depth := imgDepth.toNat
          let rowBytes := (w + 15) / 16 * 2
          let totalSize := depth * (rowBytes * h)
          if pos + 20 + totalSize > d.length then none
          else
            let imageData := sliceL d (pos + 20) (pos + 20 + totalSize)
            some { width := w, height := h, depth := depth, isWb2 := userData ≠ 0,
                   pixels := planarToChunky imageData w h depth planePick planeOnOff }

/-- Palette selection of `_try_traditional` (depth>3 ⇒ 16 colours, else
the era-selected 8-colour set). -/
def tradPalette (t : TradParsed) : List (Nat × Nat × Nat) :=
  if t.depth > 3 then PALETTE_16
  else if t.isWb2 then WB20_PALETTE
  else WB13_PALETTE

/-- RGBA conversion of `_try_traditional`: colour 0 becomes transparent
exactly on the cells the edge flood fill marked. -/
def mkTradBitmap (t : TradParsed) : Bitmap :=
  let pal := tradPalette t
  let edge := findEdgeBackground t.pixels t.width t.height
  let rgba := mkRgbaInto (t.width * t.height * 4) t.pixels.length (fun i =>
    let idx := byteAt t.pixels i
    let c := if idx < pal.length then pal.getD idx (0, 0, 0) else (0, 0, 0)
    let a := if idx = 0 ∧ edge.getD i false then 0 else 255
    (c.1, c.2.1, c.2.2, a))
  { width := t.width, height := t.height, rgba := rgba, fmt := .traditional, aspect := 2 }

/-- `IconParser._try_traditional(data)`. -/
def tryTraditional (d : List Nat) : Option Bitmap :=
  (tradRaw d).map mkTradBitmap

/-! ## Top-level dispatcher (`IconParser.parse`) -/

/-- `IconParser.parse(data)`: `Except` result is `error` only if an
uncaught exception would escape (C8 proves it never does); `ok none` is
the clean "not an icon" result. -/
def parseE (d : List Nat) : Except Unit (Option Bitmap) :=
  if d.length < 78 then .ok none
  else if readU16 d 0 ≠ 0xE310 then .ok none
  else
    match tryGlowicons d with
    | some bm => .ok (some bm)
    | none =>
      match tryNewiconsE d with
      | .error e => .error e
      | .ok (some bm) => .ok (some bm)
      | .ok none => .ok (tryTraditional d)

/-! ## Image scaling (`scale_image`, `scale_image_fit`)

The source computes source coordinates through Python floats
(`int(x * (src/dst))`); the embedding uses exact rational arithmetic for
the same formulas, `⌊x·src/dst⌋`. -/

/-- Python slice assignment `l[i:i+4] = s`. -/
def setSlice4 (l : List Nat) (i : Nat) (s : List Nat) : List Nat :=
  l.take i ++ s ++ l.drop (i + 4)

/-- `scale_image(rgba, src_w, src_h, dst_w, dst_h)`: nearest neighbour. -/
def scaleImage (rgba : List Nat) (srcW srcH dstW dstH : Nat) : List Nat :=
  (List.range dstH).foldl
    (fun acc y =>
      (List.range dstW).foldl
        (fun acc2 x =>
          let srcX := min (x * srcW / dstW) (srcW - 1)
          let srcY := min (y * srcH / dstH) (srcH - 1)
          let srcIdx := (srcY * srcW + srcX) * 4
          setSlice4 acc2 ((y * dstW + x) * 4) (sliceL rgba srcIdx (srcIdx + 4)))
        acc)
    (List.replicate (dstW * dstH * 4) 0)

/-- `scale_image_fit(rgba, src_w, src_h, dst_w, dst_h)`: aspect-preserving
scale, centred on a transparent canvas. -/
def scaleImageFit (rgba : List Nat) (srcW srcH dstW dstH : Nat) : List Nat :=
  let scale : Rat := min ((dstW : Rat) / (srcW : Rat)) ((dstH : Rat) / (srcH : Rat))
  let scaledW := max 1 ((srcW : Rat) * scale).floor.toNat
  let scaledH := max 1 ((srcH : Rat) * scale).floor.toNat
  let scaled := scaleImage rgba srcW srcH scaledW scaledH
  let offX := (dstW - scaledW) / 2
  let offY := (dstH - scaledH) / 2
  (List.range scaledH).foldl
    (fun acc y =>
      (List.range scaledW).foldl
        (fun acc2 x =>
          if offX + x < dstW ∧ offY + y < dstH then
            let srcIdx := (y * scaledW + x) * 4
            setSlice4 acc2 (((offY + y) * dstW + (offX + x)) * 4) (sliceL scaled srcIdx (srcIdx + 4))
          else acc2)
        acc)
    (List.replicate (dstW * dstH * 4) 0)

/-! ## PNG encoding (`encode_png`)

`zlib.compress` and `zlib.crc32` are external library functions (not code
of this repository); they are passed in as function parameters, so every
theorem about the container holds for any compressor/CRC. -/

/-- `write_chunk(type, data)`: length, type+data, CRC32 over type+data. -/
def pngChunk (crc : List Nat → Nat) (ctype pdata : List Nat) : List Nat :=
  packU32 pdata.length ++ ctype ++ pdata ++ packU32 (crc (ctype ++ pdata) % 4294967296)

/-- `encode_png(rgba, width, height)`. -/
def encodePng (zc : List Nat → List Nat) (crc : List Nat → Nat)
    (rgba : List Nat) (width height : Nat) : List Nat :=
  let ihdrData := packU32 width ++ packU32 height ++ [8, 6, 0, 0, 0]
  let rawData := (List.range height).flatMap (fun y =>
    0 :: (List.range width).flatMap (fun x =>
      sliceL rgba ((y * width + x) * 4) ((y * width + x) * 4 + 4)))
  [0x89, 0x50, 0x4E, 0x47, 0x0D, 0x0A, 0x1A, 0x0A] ++
  pngChunk crc [73, 72, 68, 82] ihdrData ++
  pngChunk crc [73, 68, 65, 84] (zc rawData) ++
  pngChunk crc [73, 69, 78, 68] []

/-! ## ICNS container (`create_icns`, `build_icns`) -/

/-- The `size_configs` table of `create_icns`: each ladder size with its
list of type tags (tags as 4-byte ASCII lists). -/
def sizeConfigs : List (Nat × List (List Nat)) :=
  [(16,  [[105, 99, 112, 52]]),
   (32,  [[105, 99, 112, 53], [105, 99, 49, 49]]),
   (64,  [[105, 99, 112, 54], [105, 99, 49, 50]]),
   (128, [[105, 99, 48, 55]]),
   (256, [[105, 99, 48, 56], [105, 99, 49, 51]]),
   (512, [[105, 99, 48, 57], [105, 99, 49, 52]])]

/-- Aspect-ratio pre-correction of `create_icns`: stretch the height by
the pixel aspect ratio (`int(height * aspect_ratio)` with nearest
neighbour), or keep the bitmap unchanged for ratio 1. -/
def correctedTriple (rgba : List Nat) (w h : Nat) (ar : Rat) : Nat × Nat × List Nat :=
  if ar ≠ 1 ∧ ar > 0 then
    let ch := ((h : Rat) * ar).floor.toNat
    (w, ch, scaleImage rgba w h w ch)
  else (w, h, rgba)

/-- The per-size entry loop of `create_icns`: skip 512 when it would need
more than 8x upscaling, else fit-scale, PNG-encode once, and emit one
entry per type tag at that size. -/
def createIcnsEntries (zc : List Nat → List Nat) (crc : List Nat → Nat)
    (rgba : List Nat) (w h : Nat) (ar : Rat) : List (List Nat × List Nat) :=
  let ct := correctedTriple rgba w h ar
  let maxDim := max ct.1 ct.2.1
  sizeConfigs.flatMap (fun sc =>
    if sc.1 > 256 ∧ sc.1 > maxDim * 8 then []
    else
      let png := encodePng zc crc (scaleImageFit ct.2.2 ct.1 ct.2.1 sc.1 sc.1) sc.1 sc.1
      sc.2.map (fun tc => (tc, png)))

/-- The payload `create_icns` computes for one ladder size: fit-scale the
aspect-corrected bitmap to `size x size` and PNG-encode it (the loop body
of `create_icns`, named so the entry-structure theorem can refer to it). -/
def icnsPngAt (zc : List Nat → List Nat) (crc : List Nat → Nat)
    (rgba : List Nat) (w h : Nat) (ar : Rat) (size : Nat) : List Nat :=
  encodePng zc crc
    (scaleImageFit (correctedTriple rgba w h ar).2.2 (correctedTriple rgba w h ar).1
      (correctedTriple rgba w h ar).2.1 size size) size size

/-- `build_icns(entries)`. -/
def buildIcnsContainer (entries : List (List Nat × List Nat)) : List Nat :=
  let dataSize := (entries.map (fun e => 8 + e.2.length)).sum
  [105, 99, 110, 115] ++ packU32 (8 + dataSize) ++
  entries.flatMap (fun e => e.1 ++ packU32 (8 + e.2.length) ++ e.2)

/-- `create_icns(rgba, width, height, aspect_ratio)`. -/
def createIcns (zc : List Nat → List Nat) (crc : List Nat → Nat)
    (rgba : List Nat) (w h : Nat) (ar : Rat) : List Nat :=
  buildIcnsContainer (createIcnsEntries zc crc rgba w h ar)

/-! ## Resource fork (`resource_fork.py`) -/

/-- `_build_resource_map(resources, data_offset, map_offset, data_length)`.
The grouping dict preserves insertion order, modelled by an ordered
association list. -/
def buildResourceMap (resources : List (List Nat × Int × Nat))
    (dataOffset mapOffset dataLength : Nat) : List Nat :=
  let groups := resources.foldl
    (fun acc r =>
      if acc.any (fun p => p.1 == r.1) then
        acc.map (fun p => if p.1 == r.1 then (p.1, p.2 ++ [(r.2.1, r.2.2)]) else p)
      else acc ++ [(r.1, [(r.2.1, r.2.2)])])
    ([] : List (List Nat × List (Int × Nat)))
  let numTypes := groups.length
  let typeListSize := 2 + 8 * numTypes
  let built := groups.foldl
    (fun (st : List Nat × List Nat × Nat) g =>
      let typeList := st.1 ++ g.1 ++ packU16 (g.2.length - 1) ++
        packU16 (typeListSize + st.2.2)
      let refLists := st.2.1 ++ g.2.flatMap (fun r =>
        packI16 r.1 ++ packU16 0xFFFF ++ packU32 (r.2 % 16777216) ++ packU32 0)
      (typeList, refLists, st.2.2 + g.2.length * 12))
    (packU16 (numTypes - 1), [], 0)
  let typeList := built.1
  let refLists := built.2.1
  let mapLength := 28 + typeList.length + refLists.length
  let nameListOffset := 28 + typeList.length + refLists.length
  packU32 dataOffset ++ packU32 mapOffset ++ packU32 dataLength ++ packU32 mapLength ++
    packU32 0 ++ packU16 0 ++ packU16 0 ++ packU16 28 ++ packU16 nameListOffset ++
    typeList ++ refLists

/-- `build_resource_fork(icns_data, position)`. -/
def buildResourceFork (icns : List Nat) (position : Nat) : List Nat :=
  let resourceData := packU32 icns.length ++ icns
  let dataOffset := 256
  let dataLength := resourceData.length
  let mapOffset := dataOffset + dataLength
  let resourceMap := buildResourceMap [([105, 99, 110, 115], -16455, 0)]
    dataOffset mapOffset dataLength
  let mapLength := resourceMap.length
  let header := packU32 dataOffset ++ packU32 mapOffset ++ packU32 dataLength ++
    packU32 mapLength ++ List.replicate 240 0
  let fullFork := header ++ resourceData ++ resourceMap
  if position > 0 then
    if position ≥ fullFork.length then [] else fullFork.drop position
  else fullFork

/-- `build_finder_info(has_custom_icon)`. -/
def buildFinderInfo (hasCustomIcon : Bool) : List Nat :=
  if hasCustomIcon then
    List.replicate 8 0 ++ packU16 0x0400 ++ List.replicate 22 0
  else List.replicate 32 0

/-! ## Caches (`icon_cache.py`)

Python `dict`s preserve insertion order: updates keep an entry's
position, deletions remove it, new keys append.  `time.time()` values are
supplied as explicit rational timestamps. -/

/-- Ordered-dict lookup. -/
def alFind {α : Type} (l : List (String × α)) (k : String) : Option α :=
  (l.find? (fun e => e.1 == k)).map (fun e => e.2)

/-- Ordered-dict update (`d[k] = v`). -/
def alUpd {α : Type} (l : List (String × α)) (k : String) (v : α) : List (String × α) :=
  if l.any (fun e => e.1 == k) then
    l.map (fun e => if e.1 == k then (k, v) else e)
  else l ++ [(k, v)]

/-- Ordered-dict deletion (`del d[k]` / `d.pop(k, None)`). -/
def alDel {α : Type} (l : List (String × α)) (k : String) : List (String × α) :=
  l.filter (fun e => ¬(e.1 == k))

/-- State of `IconCache`. -/
structure IconCacheState where
  entries : List (String × List Nat × Rat)
  maxEntries : Nat
  maxMemory : Int
  currentMemory : Int

/-- `IconCache(max_entries, max_memory_mb)`. -/
def mkIconCache (maxEntries maxMemoryMb : Nat) : IconCacheState :=
  ⟨[], maxEntries, (maxMemoryMb : Int) * 1024 * 1024, 0⟩

/-- The oldest-entry scan of `_evict_if_needed`: first entry (in dict
order) with the strictly smallest access time. -/
def findOldest (l : List (String × List Nat × Rat)) : Option (String × Rat) :=
  l.foldl
    (fun best e =>
      match best with
      | none => some (e.1, e.2.2)
      | some b => if e.2.2 < b.2 then some (e.1, e.2.2) else best)
    none

/-- The eviction `while` of `_evict_if_needed`.  Each eviction removes
one entry, so `entries.length + 1` units of fuel cover every terminating
run; the source loops forever if the victim key is the falsy `""`, in
which case the model returns the current state once fuel runs out. -/
def evictLoop (newSize : Int) : Nat → IconCacheState → IconCacheState
  | 0, st => st
  | fuel + 1, st =>
    if st.entries.length ≥ st.maxEntries ∨ st.currentMemory + newSize > st.maxMemory then
      if st.entries = [] then st
      else
        match findOldest st.entries with
        | some p =>
          if p.1 ≠ "" then
            match alFind st.entries p.1 with
            | some e =>
                evictLoop newSize fuel
                  { st with entries := alDel st.entries p.1,
                            currentMemory := st.currentMemory - e.1.length }
            | none => evictLoop newSize fuel st
          else evictLoop newSize fuel st
        | none => evictLoop newSize fuel st
    else st

/-- `IconCache.put(path, icns_data)` at time `now`. -/
def ccPut (st : IconCacheState) (path : String) (data : List Nat) (now : Rat) :
    IconCacheState :=
  let st1 :=
    match alFind st.entries path with
    | some e => { st with currentMemory := st.currentMemory - e.1.length }
    | none => st
  let st2 := evictLoop (data.length : Int) (st1.entries.length + 1) st1
  { st2 with entries := alUpd st2.entries path (data, now),
             currentMemory := st2.currentMemory + data.length }

/-- `IconCache.get(path)` at time `now` (refreshes the access time). -/
def ccGet (st : IconCacheState) (path : String) (now : Rat) :
    Option (List Nat) × IconCacheState :=
  match alFind st.entries path with
  | none => (none, st)
  | some e => (some e.1, { st with entries := alUpd st.entries path (e.1, now) })

/-- `IconCache.invalidate(path)`. -/
def ccInvalidate (st : IconCacheState) (path : String) : IconCacheState :=
  match alFind st.entries path with
  | none => st
  | some e =>
      { st with entries := alDel st.entries path,
                currentMemory := st.currentMemory - e.1.length }

/-- `IconCache.clear()`. -/
def ccClear (st : IconCacheState) : IconCacheState :=
  { st with entries := [], currentMemory := 0 }

/-- Sum of the byte lengths currently stored in the cache (the quantity
`memory_usage` is documented to report). -/
def sumStored (st : IconCacheState) : Int :=
  (st.entries.map (fun e => (e.2.1.length : Int))).sum

/-- State of `IconExistenceCache`. -/
structure ExistCacheState where
  entries : List (String × Bool × Rat)
  ttl : Rat

/-- `IconExistenceCache.put(path, has_icon)` at time `now`. -/
def ecPut (st : ExistCacheState) (k : String) (b : Bool) (now : Rat) : ExistCacheState :=
  { st with entries := alUpd st.entries k (b, now) }

/-- `IconExistenceCache.get(path)` at time `now`: evicts and reports
unknown once the entry is older than the ttl. -/
def ecGet (st : ExistCacheState) (k : String) (now : Rat) :
    Option Bool × ExistCacheState :=
  match alFind st.entries k with
  | none => (none, st)
  | some e =>
    if now - e.2 > st.ttl then (none, { st with entries := alDel st.entries k })
    else (some e.1, st)

/-! ## Specification-side predicates for the flood-fill claim (C3)

These express, directly from the claim's words, what "connected to the
image border by a 4-connected path of index-0 pixels" means; the theorems
below prove the BFS of `_find_edge_background` computes exactly this. -/

/-- Row-major index of cell `c = (x, y)`. -/
def cellIndex (w : Nat) (c : Nat × Nat) : Nat := c.2 * w + c.1

/-- The cell lies in the `w × h` grid. -/
def InBounds (w h : Nat) (c : Nat × Nat) : Prop := c.1 < w ∧ c.2 < h

/-- The cell's palette index is 0. -/
def ZeroCell (pixels : List Nat) (w : Nat) (c : Nat × Nat) : Prop :=
  pixels.get? (cellIndex w c) = some 0

/-- 4-connectivity (up/down/left/right neighbours). -/
def AdjCell (a b : Nat × Nat) : Prop :=
  (a.1 = b.1 ∧ (a.2 + 1 = b.2 ∨ b.2 + 1 = a.2)) ∨
  (a.2 = b.2 ∧ (a.1 + 1 = b.1 ∨ b.1 + 1 = a.1))

/-- One step of a 4-connected path through in-bounds index-0 cells. -/
def FloodStep (pixels : List Nat) (w h : Nat) (a b : Nat × Nat) : Prop :=
  InBounds w h a ∧ InBounds w h b ∧ ZeroCell pixels w a ∧ ZeroCell pixels w b ∧ AdjCell a b

/-- The cell lies on the image border. -/
def OnBorder (w h : Nat) (c : Nat × Nat) : Prop :=
  InBounds w h c ∧ (c.1 = 0 ∨ c.1 + 1 = w ∨ c.2 = 0 ∨ c.2 + 1 = h)

/-- The claim's transparency condition: the cell has index 0 and is
connected to some border index-0 cell by a 4-connected index-0 path. -/
def BorderConnected (pixels : List Nat) (w h : Nat) (c : Nat × Nat) : Prop :=
  ∃ s, OnBorder w h s ∧ ZeroCell pixels w s ∧
    Relation.ReflTransGen (FloodStep pixels w h) s c


/-- The four neighbour visits of one dequeued cell (the body of one BFS
`while` iteration of `_find_edge_background`); `floodLoop` above runs
exactly this fold, proved as `floodLoop_succ_cons` below. -/
def floodVisits (pixels : List Nat) (w h : Nat) (c : Nat × Nat)
    (st : List Bool × List (Nat × Nat)) : List Bool × List (Nat × Nat) :=
  ([((-1 : Int), (0 : Int)), (1, 0), (0, -1), (0, 1)]).foldl
    (fun s d => floodVisit pixels w h c.1 c.2 d s) st

/-- Queue soundness for the flood-fill state: every queued cell is in
bounds and already marked. -/
def QueueOk (w h : Nat) (st : List Bool × List (Nat × Nat)) : Prop :=
  ∀ c ∈ st.2, InBounds w h c ∧ st.1.get? (cellIndex w c) = some true

/-- Mark soundness: every marked index is the index of an in-bounds cell
that is border connected. -/
def MarksSound (pixels : List Nat) (w h : Nat) (m : List Bool) : Prop :=
  ∀ i, m.get? i = some true →
    ∃ c, InBounds w h c ∧ cellIndex w c = i ∧ BorderConnected pixels w h c

/-- Seed coverage: every border cell of colour 0 is marked. -/
def SeedsMarked (pixels : List Nat) (w h : Nat) (m : List Bool) : Prop :=
  ∀ c, OnBorder w h c → ZeroCell pixels w c → m.get? (cellIndex w c) = some true

/-- The BFS loop invariant: grid size, queue soundness, mark soundness,
closure (every marked cell is queued or has all its flood neighbours
marked) and seed coverage. -/
def FloodInv (pixels : List Nat) (w h : Nat) (st : List Bool × List (Nat × Nat)) : Prop :=
  st.1.length = pixels.length ∧ QueueOk w h st ∧ MarksSound pixels w h st.1 ∧
  (∀ c, InBounds w h c → st.1.get? (cellIndex w c) = some true →
    c ∈ st.2 ∨ ∀ b, FloodStep pixels w h c b → st.1.get? (cellIndex w b) = some true) ∧
  SeedsMarked pixels w h st.1

/-- The seeding-phase invariant: like `FloodInv` but every marked cell is
still in the queue (nothing has been dequeued yet). -/
def SeedInv (pixels : List Nat) (w h : Nat) (st : List Bool × List (Nat × Nat)) : Prop :=
  st.1.length = pixels.length ∧ QueueOk w h st ∧
  (∀ i, st.1.get? i = some true →
    ∃ c, InBounds w h c ∧ cellIndex w c = i ∧ BorderConnected pixels w h c ∧ c ∈ st.2)

/-! ## Concrete test inputs -/

/-- A 108-byte Traditional `.info` file: 5x5, depth 1, no drawer data, no
tool types.  Pixel indices are a border of 0, a ring of 1, and one
interior 0 at the centre (the disconnected-background shape of the
spec's flood-fill test). -/
def tradInput : List Nat :=
  [0xE3, 0x10, 0, 1] ++
  List.replicate 8 0 ++
  [0, 5, 0, 5] ++
  List.replicate 32 0 ++
  [3, 0] ++
  List.replicate 28 0 ++
  [0, 0, 0, 0, 0, 5, 0, 5, 0, 1, 0, 0, 0, 0, 1, 0, 0, 0, 0, 0] ++
  [0x00, 0x00, 0x70, 0x00, 0x50, 0x00, 0x70, 0x00, 0x00, 0x00]

/-- The ARGB chunk payload of `argbInput`: width 1, height 513, and
513 x 4 zero pixel bytes. -/
def argbPayload : List Nat := [0, 1, 2, 1] ++ List.replicate 2052 0

/-- The FORM ICON record of `argbInput` holding one ARGB chunk. -/
def argbForm : List Nat :=
  [70, 79, 82, 77] ++ (packU32 2068 ++ ([73, 67, 79, 78] ++
    ([65, 82, 71, 66] ++ (packU32 2056 ++ argbPayload))))

/-- A 2078-byte icon file whose GlowIcons FORM ICON holds a single ARGB
chunk of size 1 x 513 (513 rows exceed the claimed 512 bound). -/
def argbInput : List Nat := [0xE3, 0x10] ++ argbForm

/-- The dimension/buffer well-formedness of an inner image record which
claim C1 (amended) asserts for every successful parse. -/
def ImgOk (img : Img) : Prop :=
  img.rgba.length = img.width * img.height * 4 ∧
  1 ≤ img.width ∧ img.width ≤ 65535 ∧ 1 ≤ img.height ∧ img.height ≤ 65535

/-- An input whose first FORM occurrence (position 0) is a decoy (no ICON
at offset 8) while a real FORM ICON sits at position 16. -/
def decoyInput : List Nat :=
  [70, 79, 82, 77] ++ [0, 0, 0, 0] ++ [88, 88, 88, 88] ++ [1, 2, 3, 4] ++
  [70, 79, 82, 77] ++ packU32 4 ++ [73, 67, 79, 78]

/-- A genuine GlowIcons container occurrence: the four bytes "FORM" at
position `q` with "ICON" at `q + 8` and room for the 12-byte header. -/
def FormIconAt (d : List Nat) (q : Nat) : Prop :=
  q + 12 ≤ d.length ∧ sliceL d q (q + 4) = [70, 79, 82, 77] ∧
    sliceL d (q + 8) (q + 12) = [73, 67, 79, 78]

/-! # Theorems -/

/-- C2 (amended): the byte-oriented RLE decoder returns at most
`expected` bytes — it stops at `expected` output bytes or input
exhaustion, truncating any overshoot, but does not pad short output. -/
theorem c2_rle8_length (data : List Nat) (expected : Nat) :
    (unpackRle8bit data expected).length ≤ expected := by
  unfold unpackRle8bit
  rw [List.length_take]
  exact Nat.min_le_left _ _

/-- C2 counterexample: on input `[2, 65]` (a literal run promising three
bytes but supplying one) with `expected_size = 5` the decoder returns the
single byte `[65]`, not five zero-padded bytes — refuting "returns
exactly expected_size output bytes, zero-padded up to expected_size". -/
theorem c2_counterexample :
    unpackRle8bit [2, 65] 5 = [65] ∧ (unpackRle8bit [2, 65] 5).length ≠ 5 := by
  decide

/-- The inner literal run appends at most up to the expected size. -/
theorem bpLiteral_len {data : List Nat} {expected depth : Nat} :
    ∀ (count : Nat) (st : BitState) (acc : List Nat), acc.length ≤ expected →
      (bpLiteral data expected depth count st acc).2.length ≤ expected := by
  intro count
  induction count with
  | zero => intro st acc h; simpa [bpLiteral] using h
  | succ k ih =>
    intro st acc h
    simp only [bpLiteral]
    split
    · simpa using h
    · rename_i hge
      rcases hr : readBits data depth st with ⟨o, st'⟩
      cases o with
      | none => simp [hr]; exact h
      | some px =>
        simp only [hr]
        exact ih st' (acc ++ [px]) (by simp; omega)

/-- The main bit-packed RLE loop never exceeds the expected pixel count. -/
theorem bpLoop_len {data : List Nat} {expected depth : Nat} :
    ∀ (fuel : Nat) (st : BitState) (acc : List Nat), acc.length ≤ expected →
      (bpLoop data expected depth fuel st acc).length ≤ expected := by
  intro fuel
  induction fuel with
  | zero => intro st acc h; simpa [bpLoop] using h
  | succ k ih =>
    intro st acc h
    simp only [bpLoop]
    split
    · rename_i hguard
      rcases hr : readBits data 8 st with ⟨o, st1⟩
      cases o with
      | none => simp [hr]; exact h
      | some control =>
        simp only [hr]
        split
        · rcases hr2 : readBits data depth st1 with ⟨o2, st2⟩
          cases o2 with
          | none => simp [hr2]; exact h
          | some px =>
            simp only [hr2]
            refine ih st2 _ ?_
            have := Nat.min_le_right (257 - control) (expected - acc.length)
            simp only [List.length_append, List.length_replicate]
            omega
        · exact ih _ _ (bpLiteral_len (control + 1) st1 acc h)
    · simpa using h

/-- C4: for depths 1..7 the bit-packed RLE decoder (8-bit signed controls
from a big-endian bitstream; literal runs of `control+1` depth-bit
values, repeat runs of `-control+1` copies) always terminates with a
clean result whose length never exceeds the expected pixel count,
stopping at that count or at input exhaustion. -/
theorem c4_bitpacked_length (data : List Nat) (expected depth : Nat)
    (h1 : 1 ≤ depth) (h8 : depth < 8) :
    (unpackRleBitpacked data expected depth).length ≤ expected := by
  unfold unpackRleBitpacked
  rw [if_neg (by omega)]
  exact bpLoop_len _ _ _ (by simp)

/-- C4 witness: depth-4 stream `01 AB FF C0` = literal run (10, 11) then
repeat run (12, 12); the decode is exact and within the bound. -/
theorem c4_witness :
    (1 ≤ 4 ∧ 4 < 8 ∧ (unpackRleBitpacked [1, 171, 255, 192] 4 4).length ≤ 4) ∧
    unpackRleBitpacked [1, 171, 255, 192] 4 4 = [10, 11, 12, 12] :=
  ⟨⟨by decide, by decide, c4_bitpacked_length _ _ _ (by decide) (by decide)⟩, by decide⟩

/-- Updating an existing key leaves it findable with the new value. -/
theorem find_map_upd {α : Type} (k : String) (v : α) :
    ∀ (l : List (String × α)), l.any (fun e => e.1 == k) →
      (l.map (fun e => if e.1 == k then (k, v) else e)).find? (fun e => e.1 == k) =
        some (k, v) := by
  intro l
  induction l with
  | nil => simp
  | cons e es ih =>
    intro h
    by_cases he : e.1 == k
    · simp [List.find?, he]
    · have hes : es.any (fun e => e.1 == k) := by
        simpa [List.any_cons, he] using h
      rw [Bool.not_eq_true] at he
      rw [List.map_cons, if_neg (by simp [he]),
        List.find?_cons_of_neg _ (by simp [he])]
      exact ih hes

/-- Appending a fresh key makes it findable. -/
theorem find_append_new {α : Type} (k : String) (v : α) :
    ∀ (l : List (String × α)), ¬ l.any (fun e => e.1 == k) →
      ((l ++ [(k, v)]).find? (fun e => e.1 == k)) = some (k, v) := by
  intro l
  induction l with
  | nil => simp [List.find?]
  | cons e es ih =>
    intro h
    have he : (e.1 == k) = false := by
      cases hb : (e.1 == k)
      · rfl
      · exact absurd (by simp [List.any_cons, hb] : (e :: es).any (fun e => e.1 == k) = true) h
    have hes : ¬ es.any (fun e => e.1 == k) := by
      intro hc
      exact h (by simp [List.any_cons, hc])
    rw [List.cons_append, List.find?_cons_of_neg _ (by simp [he])]
    exact ih hes

/-- Dictionary update followed by lookup yields the stored value. -/
theorem alFind_alUpd {α : Type} (l : List (String × α)) (k : String) (v : α) :
    alFind (alUpd l k v) k = some v := by
  unfold alFind alUpd
  by_cases h : l.any (fun e => e.1 == k)
  · rw [if_pos h, find_map_upd k v l h]; rfl
  · rw [if_neg h, find_append_new k v l h]; rfl

/-- C9: after storing `(k, b)` at time `t`, a `get` at time `now` returns
the stored boolean with the cache unchanged when `now - t ≤ ttl`, and
evicts the entry and reports unknown (`none`) when `now - t > ttl` —
never the stale boolean. -/
theorem c9_existence_ttl (st : ExistCacheState) (k : String) (b : Bool) (t now : Rat) :
    ecGet (ecPut st k b t) k now =
      if now - t > st.ttl then
        (none, { st with entries := alDel (alUpd st.entries k (b, t)) k })
      else (some b, ecPut st k b t) := by
  unfold ecGet ecPut
  rw [alFind_alUpd]

/-- C10: in a 1-entry cache, `put("a", 2 bytes)` then `put("a", 1 byte)`
makes eviction pick the very key being replaced, whose size was already
subtracted — the counter ends at `-1` while the stored bytes sum to 1, so
the reported memory usage diverges from the actual stored total. -/
theorem c10_memory_bug :
    (ccPut (ccPut (mkIconCache 1 50) "a" [0, 0] 0) "a" [0] 1).currentMemory = -1 ∧
    sumStored (ccPut (ccPut (mkIconCache 1 50) "a" [0, 0] 0) "a" [0] 1) = 1 ∧
    (ccPut (ccPut (mkIconCache 1 50) "a" [0, 0] 0) "a" [0] 1).currentMemory ≠
      sumStored (ccPut (ccPut (mkIconCache 1 50) "a" [0, 0] 0) "a" [0] 1) := by
  refine ⟨by decide, by decide, by decide⟩

theorem packU32_length (n : Nat) : (packU32 n).length = 4 := rfl

theorem byteAt_append_lt (l r : List Nat) (i : Nat) (h : i < l.length) :
    byteAt (l ++ r) i = byteAt l i := by
  unfold byteAt
  rw [List.getD_eq_getElem?_getD, List.getD_eq_getElem?_getD, List.getElem?_append,
    if_pos h]

theorem byteAt_append_ge (l r : List Nat) (i : Nat) (h : l.length ≤ i) :
    byteAt (l ++ r) i = byteAt r (i - l.length) := by
  unfold byteAt
  rw [List.getD_eq_getElem?_getD, List.getD_eq_getElem?_getD,
    List.getElem?_append_right h]

theorem readU32_packU32 (n : Nat) (rest : List Nat) (h : n < 4294967296) :
    readU32 (packU32 n ++ rest) 0 = n := by
  have h0 : byteAt (packU32 n ++ rest) 0 = n / 16777216 % 256 := rfl
  have h1 : byteAt (packU32 n ++ rest) 1 = n / 65536 % 256 := rfl
  have h2 : byteAt (packU32 n ++ rest) 2 = n / 256 % 256 := rfl
  have h3 : byteAt (packU32 n ++ rest) 3 = n % 256 := rfl
  unfold readU32 readU16
  rw [h0]
  norm_num
  rw [h1, h2, h3]
  omega

theorem byteAt_packU32_skip (a : Nat) (rest : List Nat) (i : Nat) :
    byteAt (packU32 a ++ rest) (4 + i) = byteAt rest i := by
  rw [byteAt_append_ge _ _ _ (by rw [packU32_length]; omega), packU32_length]
  congr 1
  omega

theorem readU32_skip4 (a : Nat) (rest : List Nat) (i : Nat) :
    readU32 (packU32 a ++ rest) (4 + i) = readU32 rest i := by
  unfold readU32 readU16
  have e1 : 4 + i + 1 = 4 + (i + 1) := by omega
  have e2 : 4 + i + 2 = 4 + (i + 2) := by omega
  have e3 : 4 + (i + 2) + 1 = 4 + (i + 2 + 1) := by omega
  rw [e2, byteAt_packU32_skip, e1, byteAt_packU32_skip, e3, byteAt_packU32_skip,
    byteAt_packU32_skip]

theorem readU32_at4 (a : Nat) (rest : List Nat) :
    readU32 (packU32 a ++ rest) 4 = readU32 rest 0 := by
  simpa using readU32_skip4 a rest 0

theorem readU32_at8 (a : Nat) (rest : List Nat) :
    readU32 (packU32 a ++ rest) 8 = readU32 rest 4 := by
  simpa using readU32_skip4 a rest 4

theorem ite_drop (ff : List Nat) (N : Nat) :
    (if N > 0 then (if N ≥ ff.length then ([] : List Nat) else ff.drop N) else ff) =
      ff.drop N := by
  by_cases hN : N > 0
  · rw [if_pos hN]
    by_cases hl : N ≥ ff.length
    · rw [if_pos hl, Eq.comm, List.drop_eq_nil_iff]
      omega
    · rw [if_neg hl]
  · rw [if_neg hN]
    have : N = 0 := by omega
    simp [this]

theorem buildResourceFork_drop (c : List Nat) (N : Nat) :
    buildResourceFork c N = (buildResourceFork c 0).drop N := by
  simp only [buildResourceFork]
  rw [if_neg (by omega : ¬ (0:Nat) > 0)]
  exact ite_drop _ N

theorem buildResourceFork_zero (c : List Nat) :
    buildResourceFork c 0 =
      packU32 256 ++ (packU32 (256 + (4 + c.length)) ++ (packU32 (4 + c.length) ++
        (packU32 (buildResourceMap [([105, 99, 110, 115], -16455, 0)]
            256 (256 + (4 + c.length)) (4 + c.length)).length ++
         (List.replicate 240 0 ++ (packU32 c.length ++ (c ++
          buildResourceMap [([105, 99, 110, 115], -16455, 0)]
            256 (256 + (4 + c.length)) (4 + c.length))))))) := by
  simp only [buildResourceFork, List.length_append, packU32_length, List.append_assoc]
  rw [if_neg (by omega : ¬ (0:Nat) > 0)]

/-- C6: the resource fork blob begins with a 256-byte header whose
big-endian 32-bit fields satisfy data_offset = 256,
map_offset = 256 + 4 + len(container), data_length = 4 + len(container)
(hence data_offset + data_length = map_offset); and for every position N,
build(container, N) is exactly the suffix blob[N:] (empty when N exceeds
the blob).  The length hypothesis keeps the 32-bit packs in range, as
`struct.pack(">I")` requires. -/
theorem c6_resource_fork (c : List Nat) (N : Nat) (h : c.length + 260 < 4294967296) :
    readU32 (buildResourceFork c 0) 0 = 256 ∧
    readU32 (buildResourceFork c 0) 4 = 256 + 4 + c.length ∧
    readU32 (buildResourceFork c 0) 8 = 4 + c.length ∧
    readU32 (buildResourceFork c 0) 0 + readU32 (buildResourceFork c 0) 8 =
      readU32 (buildResourceFork c 0) 4 ∧
    buildResourceFork c N = (buildResourceFork c 0).drop N := by
  have g0 : readU32 (buildResourceFork c 0) 0 = 256 := by
    rw [buildResourceFork_zero]
    exact readU32_packU32 _ _ (by omega)
  have g4 : readU32 (buildResourceFork c 0) 4 = 256 + 4 + c.length := by
    rw [buildResourceFork_zero, readU32_at4, readU32_packU32 _ _ (by omega)]
    omega
  have g8 : readU32 (buildResourceFork c 0) 8 = 4 + c.length := by
    rw [buildResourceFork_zero, readU32_at8, readU32_at4]
    exact readU32_packU32 _ _ (by omega)
  exact ⟨g0, g4, g8, by rw [g0, g4, g8]; omega, buildResourceFork_drop c N⟩

/-- C6 witness: instantiated at the container `[1, 2, 3]` and N = 5. -/
theorem c6_witness :
    [1, 2, 3].length + 260 < 4294967296 ∧
    (readU32 (buildResourceFork [1, 2, 3] 0) 0 = 256 ∧
     readU32 (buildResourceFork [1, 2, 3] 0) 4 = 256 + 4 + [1, 2, 3].length ∧
     readU32 (buildResourceFork [1, 2, 3] 0) 8 = 4 + [1, 2, 3].length ∧
     readU32 (buildResourceFork [1, 2, 3] 0) 0 + readU32 (buildResourceFork [1, 2, 3] 0) 8 =
       readU32 (buildResourceFork [1, 2, 3] 0) 4 ∧
     buildResourceFork [1, 2, 3] 5 = (buildResourceFork [1, 2, 3] 0).drop 5) :=
  ⟨by decide, c6_resource_fork [1, 2, 3] 5 (by decide)⟩

theorem glowScan_le (d : List Nat) :
    ∀ (fuel pos q : Nat), pos ≤ q → FormIconAt d q → d.length + 1 - pos ≤ fuel →
      ∃ r, pos ≤ r ∧ r ≤ q ∧ FormIconAt d r ∧ glowScan d fuel pos = some r := by
  intro fuel
  induction fuel with
  | zero =>
    intro pos q hpq hq hfuel
    exact absurd hq.1 (by omega)
  | succ f ih =>
    intro pos q hpq hq hfuel
    have hpos4 : ¬ pos + 4 > d.length := by
      have := hq.1
      omega
    by_cases hform : sliceL d pos (pos + 4) = [70, 79, 82, 77]
    · have hroom : ¬ d.length < pos + 12 := by
        have := hq.1
        omega
      by_cases hicon : sliceL d (pos + 8) (pos + 12) = [73, 67, 79, 78]
      · refine ⟨pos, le_refl pos, hpq, ⟨by omega, hform, hicon⟩, ?_⟩
        simp only [glowScan]
        rw [if_neg hpos4, if_pos hform, if_neg hroom, if_pos hicon]
      · have hne : pos ≠ q := fun he => hicon (he ▸ hq.2.2)
        obtain ⟨r, h1, h2, h3, h4⟩ := ih (pos + 1) q (by omega) hq (by omega)
        refine ⟨r, by omega, h2, h3, ?_⟩
        simp only [glowScan]
        rw [if_neg hpos4, if_pos hform, if_neg hroom, if_neg hicon]
        exact h4
    · have hne : pos ≠ q := fun he => hform (he ▸ hq.2.1)
      obtain ⟨r, h1, h2, h3, h4⟩ := ih (pos + 1) q (by omega) hq (by omega)
      refine ⟨r, by omega, h2, h3, ?_⟩
      simp only [glowScan]
      rw [if_neg hpos4, if_neg hform]
      exact h4

/-- C7: whenever some position `q` holds a genuine FORM ICON occurrence,
the GlowIcons search does not stop at any earlier decoy "FORM" (one not
followed by "ICON" at offset +8): it returns the first genuine
occurrence `r ≤ q` and parses the IFF data found there. -/
theorem c7_glow_decoy (d : List Nat) (q : Nat) (h : FormIconAt d q) :
    ∃ r, r ≤ q ∧ FormIconAt d r ∧ glowScan d (d.length + 1) 0 = some r ∧
      tryGlowicons d = parseIffIcon (d.drop r) := by
  obtain ⟨r, _, h2, h3, h4⟩ := glowScan_le d (d.length + 1) 0 q (Nat.zero_le q) h (by omega)
  refine ⟨r, h2, h3, h4, ?_⟩
  unfold tryGlowicons
  rw [h4]

/-- C7 witness: `decoyInput` has a decoy FORM at position 0 (no ICON at
offset 8) and a genuine FORM ICON at 16; the search skips the decoy and
returns 16. -/
theorem c7_witness :
    (∃ r, r ≤ 16 ∧ FormIconAt decoyInput r ∧
       glowScan decoyInput (decoyInput.length + 1) 0 = some r ∧
       tryGlowicons decoyInput = parseIffIcon (decoyInput.drop r)) ∧
    sliceL decoyInput 0 4 = [70, 79, 82, 77] ∧
    sliceL decoyInput 8 12 ≠ [73, 67, 79, 78] ∧
    glowScan decoyInput (decoyInput.length + 1) 0 = some 16 :=
  ⟨c7_glow_decoy decoyInput 16 ⟨by decide, by decide, by decide⟩,
   by decide, by decide, by decide⟩

theorem unpackU32E_ok (d : List Nat) (i : Nat) (h : i + 4 ≤ d.length) :
    unpackU32E d i = .ok (readU32 d i) := by
  unfold unpackU32E
  rw [if_pos h]

theorem unpackU16E_ok (d : List Nat) (i : Nat) (h : i + 2 ≤ d.length) :
    unpackU16E d i = .ok (readU16 d i) := by
  unfold unpackU16E
  rw [if_pos h]

theorem unpackI16E_ok (d : List Nat) (i : Nat) (h : i + 2 ≤ d.length) :
    unpackI16E d i = .ok (readI16 d i) := by
  unfold unpackI16E
  rw [if_pos h]

theorem exceptBind_ok {α β : Type} (a : α) (f : α → Except Unit β) :
    (Except.ok a >>= f) = f a := rfl

theorem bind_isOk {α β : Type} {e : Except Unit α} {f : α → Except Unit β}
    (h1 : ∃ a, e = .ok a) (h2 : ∀ a, ∃ b, f a = .ok b) : ∃ b, (e >>= f) = .ok b := by
  obtain ⟨a, ha⟩ := h1
  rw [ha, exceptBind_ok]
  exact h2 a

theorem ttLoop_ok (d : List Nat) :
    ∀ (fuel pos : Nat) (remaining : Int) (acc : List (List Nat)),
      ∃ r, ttLoop d fuel pos remaining acc = .ok r := by
  intro fuel
  induction fuel with
  | zero => intro pos remaining acc; exact ⟨acc, rfl⟩
  | succ f ih =>
    intro pos remaining acc
    simp only [ttLoop]
    split
    · rename_i hguard
      rw [unpackU32E_ok d pos (by omega), exceptBind_ok]
      split
      · exact ih _ _ _
      · split
        · exact ih _ _ _
        · exact ⟨acc, rfl⟩
    · exact ⟨acc, rfl⟩

theorem tooltypesE_ok (d : List Nat) : ∃ r, tooltypesE d = .ok r := by
  simp only [tooltypesE]
  split
  · exact ⟨[], rfl⟩
  rename_i h78
  refine bind_isOk ⟨_, unpackU32E_ok d 66 (by omega)⟩ (fun doDrawerData => ?_)
  generalize (if doDrawerData ≠ 0 then 78 + 56 else 78 : Nat) = pos0
  split
  · exact ⟨[], rfl⟩
  rename_i h20
  refine bind_isOk ⟨_, unpackI16E_ok d _ (by omega)⟩ (fun img1W => ?_)
  refine bind_isOk ⟨_, unpackI16E_ok d _ (by omega)⟩ (fun img1H => ?_)
  refine bind_isOk ⟨_, unpackI16E_ok d _ (by omega)⟩ (fun img1D => ?_)
  split
  · exact ⟨[], rfl⟩
  refine bind_isOk ⟨_, unpackU16E_ok d 16 (by omega)⟩ (fun gadgetFlags => ?_)
  split
  · rename_i hsec
    refine bind_isOk ⟨_, unpackI16E_ok d _ (by omega)⟩ (fun img2W => ?_)
    refine bind_isOk ⟨_, unpackI16E_ok d _ (by omega)⟩ (fun img2H => ?_)
    refine bind_isOk ⟨_, unpackI16E_ok d _ (by omega)⟩ (fun img2D => ?_)
    split
    all_goals
      refine bind_isOk ⟨_, rfl⟩ (fun pos2 => ?_)
      refine bind_isOk ⟨_, unpackU32E_ok d 50 (by omega)⟩ (fun defaultToolPtr => ?_)
      split
      · exact ⟨[], rfl⟩
      rename_i pos3 hfind
      refine bind_isOk ⟨_, unpackU32E_ok d 54 (by omega)⟩ (fun ttPtr => ?_)
      split
      · exact ⟨[], rfl⟩
      split
      · exact ⟨[], rfl⟩
      rename_i hp4
      refine bind_isOk ⟨_, unpackU32E_ok d pos3 (by omega)⟩ (fun totalLen => ?_)
      exact ttLoop_ok d _ _ _ _
  · refine bind_isOk ⟨_, rfl⟩ (fun pos2 => ?_)
    refine bind_isOk ⟨_, unpackU32E_ok d 50 (by omega)⟩ (fun defaultToolPtr => ?_)
    split
    · exact ⟨[], rfl⟩
    rename_i pos3 hfind
    refine bind_isOk ⟨_, unpackU32E_ok d 54 (by omega)⟩ (fun ttPtr => ?_)
    split
    · exact ⟨[], rfl⟩
    split
    · exact ⟨[], rfl⟩
    rename_i hp4
    refine bind_isOk ⟨_, unpackU32E_ok d pos3 (by omega)⟩ (fun totalLen => ?_)
    exact ttLoop_ok d _ _ _ _




/-- C8: `IconParser.parse` never lets an exception escape: for every
input byte string the embedded parser (in which every potentially
throwing `struct.unpack` of the unprotected ToolTypes helper is modelled
as a checked read) returns `ok` — either a bitmap or the clean `none`
obtained when all three variants fall through. -/
theorem c8_parse_total (d : List Nat) : ∃ r, parseE d = .ok r := by
  unfold parseE
  split
  · exact ⟨none, rfl⟩
  split
  · exact ⟨none, rfl⟩
  cases hglow : tryGlowicons d with
  | some bm => exact ⟨some bm, rfl⟩
  | none =>
    obtain ⟨ts, hts⟩ := tooltypesE_ok d
    have hnew : tryNewiconsE d = .ok (newiconsFromTooltypes ts) := by
      unfold tryNewiconsE
      rw [hts]
    rw [hnew]
    cases hni : newiconsFromTooltypes ts with
    | some bm => exact ⟨some bm, rfl⟩
    | none => exact ⟨tryTraditional d, rfl⟩

/-- C5 (amended): the entry list of the container built from any
canonical bitmap consists of exactly one entry for size 16 (icp4), two
entries sharing one payload for each of sizes 32 (icp5/ic11), 64
(icp6/ic12) and 256 (ic08/ic13), exactly ONE entry for size 128 (ic07,
no paired tag), and — unless 512 exceeds 8x the corrected bitmap's
larger dimension — two entries sharing one payload for size 512
(ic09/ic14). -/
theorem c5_entries (zc : List Nat → List Nat) (crc : List Nat → Nat)
    (rgba : List Nat) (w h : Nat) (ar : Rat) :
    createIcnsEntries zc crc rgba w h ar =
      [([105, 99, 112, 52], icnsPngAt zc crc rgba w h ar 16),
       ([105, 99, 112, 53], icnsPngAt zc crc rgba w h ar 32),
       ([105, 99, 49, 49], icnsPngAt zc crc rgba w h ar 32),
       ([105, 99, 112, 54], icnsPngAt zc crc rgba w h ar 64),
       ([105, 99, 49, 50], icnsPngAt zc crc rgba w h ar 64),
       ([105, 99, 48, 55], icnsPngAt zc crc rgba w h ar 128),
       ([105, 99, 48, 56], icnsPngAt zc crc rgba w h ar 256),
       ([105, 99, 49, 51], icnsPngAt zc crc rgba w h ar 256)] ++
      (if 512 > (max (correctedTriple rgba w h ar).1 (correctedTriple rgba w h ar).2.1) * 8
       then []
       else [([105, 99, 48, 57], icnsPngAt zc crc rgba w h ar 512),
             ([105, 99, 49, 52], icnsPngAt zc crc rgba w h ar 512)]) := by
  unfold createIcnsEntries icnsPngAt
  simp only [sizeConfigs, List.flatMap_cons, List.flatMap_nil, List.map_cons,
    List.map_nil, List.append_nil]
  by_cases h512 :
      512 > (max (correctedTriple rgba w h ar).1 (correctedTriple rgba w h ar).2.1) * 8
  · norm_num [h512]
  · norm_num [h512]


/-- C5 counterexample: for a concrete 64x1 bitmap (aspect 1, identity
compressor, zero CRC) with the 512 rung emitted, the container holds ten
entries whose tags pair up for 32/64/256/512 but include only the single
tag ic07 at size 128 — size 128 contributes one entry, not the claimed
two. -/
theorem c5_counterexample :
    ((createIcnsEntries (fun x => x) (fun _ => 0) (List.replicate 256 0) 64 1 1).map
        Prod.fst =
      [[105, 99, 112, 52], [105, 99, 112, 53], [105, 99, 49, 49],
       [105, 99, 112, 54], [105, 99, 49, 50], [105, 99, 48, 55],
       [105, 99, 48, 56], [105, 99, 49, 51], [105, 99, 48, 57], [105, 99, 49, 52]]) ∧
    ((createIcnsEntries (fun x => x) (fun _ => 0) (List.replicate 256 0) 64 1 1).map
        Prod.fst).count [105, 99, 48, 55] = 1 := by
  constructor
  · decide
  · decide

theorem mkRgbaInto_length (total count : Nat) (f : Nat → Nat × Nat × Nat × Nat) :
    (mkRgbaInto total count f).length = total := by
  unfold mkRgbaInto
  suffices h : ∀ (l : List Nat) (init : List Nat),
      (l.foldl (fun acc i =>
        let q := f i
        ((((acc.set (i * 4) q.1).set (i * 4 + 1) q.2.1).set
            (i * 4 + 2) q.2.2.1).set (i * 4 + 3) q.2.2.2)) init).length = init.length by
    rw [h]
    exact List.length_replicate total 0
  intro l
  induction l with
  | nil => intro init; rfl
  | cons x xs ih =>
    intro init
    rw [List.foldl_cons, ih]
    simp [List.length_set]

theorem byteAt_lt (d : List Nat) (hb : ∀ b ∈ d, b < 256) (i : Nat) :
    byteAt d i < 256 := by
  unfold byteAt
  rw [List.getD_eq_getElem?_getD]
  cases h : d[i]? with
  | none => simp
  | some x =>
    simp only [Option.getD_some]
    exact hb x (List.getElem?_mem h)

theorem readU16_lt (d : List Nat) (hb : ∀ b ∈ d, b < 256) (i : Nat) :
    readU16 d i < 65536 := by
  unfold readU16
  have h1 := byteAt_lt d hb i
  have h2 := byteAt_lt d hb (i + 1)
  omega

theorem sliceL_bytes (d : List Nat) (hb : ∀ b ∈ d, b < 256) (a b : Nat) :
    ∀ x ∈ sliceL d a b, x < 256 := by
  intro x hx
  apply hb
  exact ((List.take_sublist _ _).trans (List.drop_sublist _ _)).subset hx

theorem drop_bytes (d : List Nat) (hb : ∀ b ∈ d, b < 256) (a : Nat) :
    ∀ x ∈ d.drop a, x < 256 := by
  intro x hx
  exact hb x ((List.drop_sublist _ _).subset hx)

theorem parseArgbChunk_ok (d : List Nat) (hb : ∀ b ∈ d, b < 256) (img : Img)
    (h : parseArgbChunk d = some img) : ImgOk img := by
  simp only [parseArgbChunk] at h
  split at h
  · exact absurd h (by simp)
  split at h
  · exact absurd h (by simp)
  split at h
  · exact absurd h (by simp)
  rename_i hlen hwh hpd
  rw [Option.some_inj] at h
  subst h
  have hw := readU16_lt d hb 0
  have hh := readU16_lt d hb 2
  unfold ImgOk
  dsimp only
  refine ⟨mkRgbaInto_length _ _ _, ?_, ?_, ?_, ?_⟩ <;> omega

theorem parseFaceChunk_bound (d : List Nat) (hb : ∀ b ∈ d, b < 256) (f : FaceInfo)
    (h : parseFaceChunk d = some f) : f.width ≤ 65535 ∧ f.height ≤ 65535 := by
  unfold parseFaceChunk at h
  split at h
  · exact absurd h (by simp)
  rw [Option.some_inj] at h
  subst h
  have h0 := byteAt_lt d hb 0
  have h1 := byteAt_lt d hb 1
  exact ⟨by dsimp only; omega, by dsimp only; omega⟩

theorem ite_none_some_inv {α : Type} {C : Prop} [Decidable C] {x img : α}
    (h : (if C then none else some x) = some img) : img = x := by
  split at h
  · exact Option.noConfusion h
  · exact (Option.some_inj.mp h).symm

theorem parseImagChunk_ok (d : List Nat) (face : Option FaceInfo) (img : Img)
    (hface : ∀ f, face = some f → f.width ≤ 65535 ∧ f.height ≤ 65535)
    (h : parseImagChunk d face = some img) : ImgOk img := by
  simp only [parseImagChunk] at h
  split at h
  · exact Option.noConfusion h
  split at h
  · exact Option.noConfusion h
  rename_i f
  split at h
  · exact Option.noConfusion h
  rename_i hwz
  have himg := ite_none_some_inv h
  subst himg
  obtain ⟨hfw, hfh⟩ := hface f rfl
  unfold ImgOk
  dsimp only
  refine ⟨mkRgbaInto_length _ _ _, ?_, ?_, ?_, ?_⟩ <;> omega

theorem glowChunkLoop_ok (d : List Nat) (limit : Nat) (hb : ∀ b ∈ d, b < 256) :
    ∀ (fuel pos : Nat) (face : Option FaceInfo) (images : List Img),
      (∀ f, face = some f → f.width ≤ 65535 ∧ f.height ≤ 65535) →
      (∀ img ∈ images, ImgOk img) →
      ∀ img ∈ glowChunkLoop d limit fuel pos face images, ImgOk img := by
  intro fuel
  induction fuel with
  | zero => intro pos face images _ himg; simpa [glowChunkLoop] using himg
  | succ k ih =>
    intro pos face images hface himg
    simp only [glowChunkLoop]
    split
    · split
      · exact himg
      refine ih _ _ _ ?_ ?_
      · -- new face invariant
        split
        · rename_i hfc
          intro f hf
          exact parseFaceChunk_bound _ (sliceL_bytes d hb _ _) f hf
        · exact hface
      · -- new images invariant
        split
        · rename_i hio
          split
          · rename_i img1 himg1
            intro img hmem
            rcases List.mem_append.mp hmem with hm | hm
            · exact himg img hm
            · rw [List.mem_singleton.mp hm]
              exact parseImagChunk_ok _ _ _ hface himg1
          · exact himg
        · split
          · rename_i hao
            split
            · rename_i img1 himg1
              intro img hmem
              rcases List.mem_append.mp hmem with hm | hm
              · exact himg img hm
              · rw [List.mem_singleton.mp hm]
                exact parseArgbChunk_ok _ (sliceL_bytes d hb _ _) _ himg1
            · exact himg
          · exact himg
    · exact himg

theorem parseIffIcon_ok (d : List Nat) (hb : ∀ b ∈ d, b < 256) (bm : Bitmap)
    (h : parseIffIcon d = some bm) :
    bm.rgba.length = bm.width * bm.height * 4 ∧ 1 ≤ bm.width ∧ bm.width ≤ 65535 ∧
      1 ≤ bm.height ∧ bm.height ≤ 65535 := by
  simp only [parseIffIcon] at h
  split at h
  · exact absurd h (by simp)
  split at h
  · exact absurd h (by simp)
  rename_i img hhead
  rw [Option.some_inj] at h
  subst h
  have hmem : img ∈ glowChunkLoop d (min d.length (readU32 d 4 + 8))
      (min d.length (readU32 d 4 + 8) / 8 + 1) 12 none [] := by
    exact List.mem_of_mem_head? hhead
  have := glowChunkLoop_ok d _ hb _ _ _ _ (by intro f hf; cases hf) (by intro i hi; cases hi)
    img hmem
  obtain ⟨h1, h2, h3, h4, h5⟩ := this
  exact ⟨h1, h2, h3, h4, h5⟩

theorem tryGlowicons_ok (d : List Nat) (hb : ∀ b ∈ d, b < 256) (bm : Bitmap)
    (h : tryGlowicons d = some bm) :
    bm.rgba.length = bm.width * bm.height * 4 ∧ 1 ≤ bm.width ∧ bm.width ≤ 65535 ∧
      1 ≤ bm.height ∧ bm.height ≤ 65535 := by
  unfold tryGlowicons at h
  split at h
  · exact absurd h (by simp)
  rename_i p hscan
  exact parseIffIcon_ok _ (drop_bytes d hb p) _ h

theorem decodeNewicons_ok (s : List Nat) (img : Img)
    (h : decodeNewicons s = some img) :
    img.rgba.length = img.width * img.height * 4 ∧ 1 ≤ img.width ∧ img.width ≤ 640 ∧
      1 ≤ img.height ∧ img.height ≤ 512 := by
  simp only [decodeNewicons] at h
  split at h
  · exact Option.noConfusion h
  split at h
  · exact Option.noConfusion h
  split at h
  · exact Option.noConfusion h
  rename_i nc0 pos hcc
  split at h
  · exact Option.noConfusion h
  rename_i hdims
  rw [Option.some_inj] at h
  subst h
  dsimp only
  refine ⟨mkRgbaInto_length _ _ _, ?_, ?_, ?_, ?_⟩ <;> omega

theorem newiconsFromTooltypes_ok (tts : List (List Nat)) (bm : Bitmap)
    (h : newiconsFromTooltypes tts = some bm) :
    bm.rgba.length = bm.width * bm.height * 4 ∧ 1 ≤ bm.width ∧ bm.width ≤ 65535 ∧
      1 ≤ bm.height ∧ bm.height ≤ 65535 := by
  simp only [newiconsFromTooltypes] at h
  split at h
  · exact Option.noConfusion h
  split at h
  · exact Option.noConfusion h
  split at h
  · exact Option.noConfusion h
  split at h
  · exact Option.noConfusion h
  rename_i img himg
  rw [Option.some_inj] at h
  subst h
  dsimp only
  obtain ⟨h1, h2, h3, h4, h5⟩ := decodeNewicons_ok _ _ himg
  exact ⟨h1, h2, by omega, h4, by omega⟩

theorem planarToChunky_length (data : List Nat) (w h depth pp poo : Nat) :
    (planarToChunky data w h depth pp poo).length = w * h := by
  unfold planarToChunky
  rw [List.length_flatMap]
  rw [List.map_congr_left (g := fun _ => w) (fun y _ => by
    rw [Function.comp_apply, List.length_map, List.length_range])]
  rw [List.map_const', List.sum_replicate, List.length_range, smul_eq_mul,
    Nat.mul_comm]

theorem tryTraditional_ok (d : List Nat) (bm : Bitmap)
    (h : tryTraditional d = some bm) :
    bm.rgba.length = bm.width * bm.height * 4 ∧ 1 ≤ bm.width ∧ bm.width ≤ 65535 ∧
      1 ≤ bm.height ∧ bm.height ≤ 65535 := by
  unfold tryTraditional at h
  cases ht : tradRaw d with
  | none => rw [ht] at h; exact Option.noConfusion h
  | some t =>
    rw [ht] at h
    simp only [Option.map_some'] at h
    rw [Option.some_inj] at h
    subst h
    simp only [tradRaw] at ht
    split at ht
    · exact Option.noConfusion ht
    split at ht
    · exact Option.noConfusion ht
    rename_i hgd
    generalize hpos : (if readU32 d 66 ≠ 0 then 78 + 56 else 78 : Nat) = pos at ht
    split at ht
    · exact Option.noConfusion ht
    rename_i h20
    split at ht
    · exact Option.noConfusion ht
    rename_i hdims0
    split at ht
    · exact Option.noConfusion ht
    rename_i hdims1
    split at ht
    · exact Option.noConfusion ht
    rename_i hsize
    rw [Option.some_inj] at ht
    subst ht
    unfold mkTradBitmap
    dsimp only
    refine ⟨mkRgbaInto_length _ _ _, ?_, ?_, ?_, ?_⟩ <;> omega

/-- C1 (amended): for every byte string on which `IconParser.parse`
succeeds, the returned rgba buffer has length exactly width*height*4 and
1 <= width <= 65535 and 1 <= height <= 65535.  (The 640x512 bound of the
original claim holds for the Traditional, NewIcons and GlowIcons-IMAG
paths but not for GlowIcons-ARGB images, whose 16-bit dimensions are
never range-checked — see the counterexample.) -/
theorem c1_parse_dims (d : List Nat) (bm : Bitmap) (hb : ∀ b ∈ d, b < 256)
    (h : parseE d = .ok (some bm)) :
    bm.rgba.length = bm.width * bm.height * 4 ∧ 1 ≤ bm.width ∧ bm.width ≤ 65535 ∧
      1 ≤ bm.height ∧ bm.height ≤ 65535 := by
  unfold parseE at h
  split at h
  · exact Except.noConfusion h (fun he => Option.noConfusion he)
  split at h
  · exact Except.noConfusion h (fun he => Option.noConfusion he)
  cases hglow : tryGlowicons d with
  | some bm' =>
    rw [hglow] at h
    have : bm' = bm := by
      have := Except.ok.inj h
      exact Option.some_inj.mp this
    subst this
    exact tryGlowicons_ok d hb _ hglow
  | none =>
    rw [hglow] at h
    obtain ⟨ts, hts⟩ := tooltypesE_ok d
    have hnew : tryNewiconsE d = .ok (newiconsFromTooltypes ts) := by
      unfold tryNewiconsE
      rw [hts]
    rw [hnew] at h
    cases hni : newiconsFromTooltypes ts with
    | some bm' =>
      rw [hni] at h
      have : bm' = bm := Option.some_inj.mp (Except.ok.inj h)
      subst this
      exact newiconsFromTooltypes_ok ts _ hni
    | none =>
      rw [hni] at h
      have : tryTraditional d = some bm := Except.ok.inj h
      exact tryTraditional_ok d bm this

theorem argbPayload_len : argbPayload.length = 2056 := by
  rw [argbPayload, List.length_append, List.length_replicate]
  decide

theorem argbForm_len : argbForm.length = 2076 := by
  rw [argbForm]
  simp only [List.length_append, argbPayload_len]
  rfl

theorem argbInput_len : argbInput.length = 2078 := by
  rw [argbInput, List.length_append, argbForm_len]
  decide

theorem argb_chunk : ∃ rgba, parseArgbChunk argbPayload = some ⟨1, 513, rgba⟩ := by
  simp only [parseArgbChunk]
  rw [if_neg (by rw [argbPayload_len]; omega)]
  rw [show readU16 argbPayload 0 = 1 from rfl, show readU16 argbPayload 2 = 513 from rfl]
  rw [if_neg (by norm_num)]
  rw [if_neg (by rw [List.length_drop, argbPayload_len]; norm_num)]
  exact ⟨_, rfl⟩

/-- Unfolding equation of the chunk loop for positive fuel. -/
theorem glowChunkLoop_succ (d : List Nat) (limit fuel pos : Nat) (face : Option FaceInfo)
    (images : List Img) :
    glowChunkLoop d limit (fuel + 1) pos face images =
      (if pos < limit then
        if pos + 8 > d.length then images
        else
          glowChunkLoop d limit fuel
            (pos + 8 + readU32 d (pos + 4) + (if readU32 d (pos + 4) % 2 = 1 then 1 else 0))
            (if sliceL d pos (pos + 4) = [70, 65, 67, 69] then
              parseFaceChunk (sliceL d (pos + 8) (pos + 8 + readU32 d (pos + 4)))
            else face)
            (if sliceL d pos (pos + 4) = [73, 77, 65, 71] then
              match parseImagChunk (sliceL d (pos + 8) (pos + 8 + readU32 d (pos + 4))) face with
              | some img => images ++ [img]
              | none => images
            else if sliceL d pos (pos + 4) = [65, 82, 71, 66] then
              match parseArgbChunk (sliceL d (pos + 8) (pos + 8 + readU32 d (pos + 4))) with
              | some img => images ++ [img]
              | none => images
            else images)
      else images) := rfl

theorem argb_loop :
    ∃ rgba, glowChunkLoop argbForm 2076 260 12 none [] = [⟨1, 513, rgba⟩] := by
  obtain ⟨rgba, hchunk⟩ := argb_chunk
  refine ⟨rgba, ?_⟩
  rw [show (260 : Nat) = 259 + 1 from rfl, glowChunkLoop_succ]
  rw [if_pos (by norm_num : (12 : Nat) < 2076)]
  rw [if_neg (by rw [argbForm_len]; norm_num)]
  rw [show readU32 argbForm (12 + 4) = 2056 from rfl]
  rw [show sliceL argbForm 12 (12 + 4) = [65, 82, 71, 66] from rfl]
  rw [if_neg (show ¬(([65, 82, 71, 66] : List Nat) = [70, 65, 67, 69]) from by decide)]
  rw [if_neg (show ¬(([65, 82, 71, 66] : List Nat) = [73, 77, 65, 71]) from by decide)]
  rw [if_pos (show ([65, 82, 71, 66] : List Nat) = [65, 82, 71, 66] from rfl)]
  have hdata : sliceL argbForm (12 + 8) (12 + 8 + 2056) = argbPayload := by
    unfold sliceL
    rw [show argbForm.drop (12 + 8) = argbPayload from rfl]
    exact List.take_of_length_le (by rw [argbPayload_len])
  rw [hdata, hchunk]
  dsimp only
  rw [List.nil_append]
  rw [show 12 + 8 + 2056 + (if (2056 : Nat) % 2 = 1 then 1 else 0) = 2076 from rfl]
  rw [show (259 : Nat) = 258 + 1 from rfl, glowChunkLoop_succ]
  rw [if_neg (by norm_num : ¬(2076 : Nat) < 2076)]

theorem parseIffIcon_eq (d : List Nat) (h : ¬ d.length < 12) :
    parseIffIcon d =
      match (glowChunkLoop d (min d.length (readU32 d 4 + 8))
          (min d.length (readU32 d 4 + 8) / 8 + 1) 12 none []).head? with
      | none => none
      | some img => some ⟨img.width, img.height, img.rgba, .glowicons, 1⟩ := by
  unfold parseIffIcon
  rw [if_neg h]

theorem argb_iff : ∃ rgba, parseIffIcon argbForm = some ⟨1, 513, rgba, .glowicons, 1⟩ := by
  obtain ⟨rgba, hloop⟩ := argb_loop
  refine ⟨rgba, ?_⟩
  rw [parseIffIcon_eq _ (by rw [argbForm_len]; omega)]
  rw [show readU32 argbForm 4 = 2068 from rfl, argbForm_len]
  rw [show min 2076 (2068 + 8) = 2076 from by norm_num]
  rw [show (2076 : Nat) / 8 + 1 = 260 from by norm_num]
  rw [hloop]
  rfl

/-- C1 counterexample: `argbInput` is a genuine byte string (all values
< 256) on which `parse` succeeds via the GlowIcons ARGB path with height
513 — exceeding the claimed bound height <= 512. -/
theorem c1_counterexample :
    (∀ b ∈ argbInput, b < 256) ∧
    ∃ bm, parseE argbInput = .ok (some bm) ∧ bm.height = 513 ∧ 512 < bm.height := by
  constructor
  · intro b hb
    simp only [argbInput, argbForm, argbPayload, packU32, List.mem_append, List.mem_cons,
      List.mem_replicate, List.not_mem_nil, or_false] at hb
    omega
  · obtain ⟨rgba, hiff⟩ := argb_iff
    have hfi2 : FormIconAt argbInput 2 :=
      ⟨by rw [argbInput_len]; omega, rfl, rfl⟩
    obtain ⟨r, hr0, hr2, hfi, hscan⟩ :=
      glowScan_le argbInput (argbInput.length + 1) 0 2 (by omega) hfi2 (by omega)
    interval_cases r
    · exact absurd hfi.2.1 (by decide)
    · exact absurd hfi.2.1 (by decide)
    have hglow : tryGlowicons argbInput = some ⟨1, 513, rgba, .glowicons, 1⟩ := by
      unfold tryGlowicons
      rw [hscan]
      show parseIffIcon (List.drop 2 argbInput) = _
      rw [show List.drop 2 argbInput = argbForm from rfl]
      exact hiff
    refine ⟨⟨1, 513, rgba, .glowicons, 1⟩, ?_, rfl, Nat.lt_succ_self 512⟩
    unfold parseE
    rw [if_neg (by rw [argbInput_len]; omega)]
    rw [show readU16 argbInput 0 = 0xE310 from rfl]
    rw [if_neg (by norm_num)]
    rw [hglow]



theorem exceptToOption_ok {α : Type} (e : Except Unit α) (x : α)
    (h : e.toOption = some x) : e = .ok x := by
  cases e with
  | ok a =>
    simp only [Except.toOption, Option.some_inj] at h
    rw [h]
  | error err => simp [Except.toOption] at h

/-- C1 witness: the 108-byte Traditional input parses successfully and
the amended dimension/buffer properties hold for its bitmap. -/
theorem c1_witness :
    (∀ b ∈ tradInput, b < 256) ∧
    ∃ bm, parseE tradInput = .ok (some bm) ∧
      (bm.rgba.length = bm.width * bm.height * 4 ∧ 1 ≤ bm.width ∧ bm.width ≤ 65535 ∧
        1 ≤ bm.height ∧ bm.height ≤ 65535) := by
  have hb : ∀ b ∈ tradInput, b < 256 := by decide
  have hp : parseE tradInput = .ok (some (mkTradBitmap ⟨5, 5, 1, false,
      [0, 0, 0, 0, 0, 0, 1, 1, 1, 0, 0, 1, 0, 1, 0, 0, 1, 1, 1, 0, 0, 0, 0, 0, 0]⟩)) := by
    apply exceptToOption_ok
    decide
  exact ⟨hb, _, hp, c1_parse_dims tradInput _ hb hp⟩

theorem cellIndex_lt {w h : Nat} {c : Nat × Nat} (hc : InBounds w h c) :
    cellIndex w c < w * h := by
  obtain ⟨h1, h2⟩ := hc
  unfold cellIndex
  calc c.2 * w + c.1 < (c.2 + 1) * w := by rw [Nat.succ_mul]; omega
    _ ≤ h * w := Nat.mul_le_mul_right w h2
    _ = w * h := Nat.mul_comm h w

theorem cellIndex_inj {w h : Nat} {c c' : Nat × Nat} (hc : InBounds w h c)
    (hc' : InBounds w h c') (he : cellIndex w c = cellIndex w c') : c = c' := by
  unfold cellIndex at he
  have e1 : ∀ x y : Nat, x < w → (y * w + x) % w = x := by
    intro x y hx
    rw [Nat.add_comm, Nat.add_mul_mod_self_right, Nat.mod_eq_of_lt hx]
  have e2 : ∀ x y : Nat, x < w → (y * w + x) / w = y := by
    intro x y hx
    rw [Nat.add_comm, Nat.add_mul_div_right _ _ (Nat.lt_of_le_of_lt (Nat.zero_le x) hx),
      Nat.div_eq_of_lt hx, Nat.zero_add]
  have hx : c.1 = c'.1 := by
    have := congrArg (· % w) he
    simpa [e1 c.1 c.2 hc.1, e1 c'.1 c'.2 hc'.1] using this
  have hy : c.2 = c'.2 := by
    have := congrArg (· / w) he
    simpa [e2 c.1 c.2 hc.1, e2 c'.1 c'.2 hc'.1] using this
  exact Prod.ext hx hy

theorem borderConnected_zero {pixels : List Nat} {w h : Nat} {c : Nat × Nat}
    (hbc : BorderConnected pixels w h c) : ZeroCell pixels w c := by
  obtain ⟨s, _, hsz, hpath⟩ := hbc
  rcases Relation.ReflTransGen.cases_tail hpath with he | ⟨b, _, hstep⟩
  · rw [he]; exact hsz
  · exact hstep.2.2.2.1

theorem count_false_set (l : List Bool) (j : Nat) (h : l.get? j = some false) :
    (l.set j true).count false + 1 = l.count false := by
  induction l generalizing j with
  | nil => simp at h
  | cons a as ih =>
    cases j with
    | zero =>
      rw [List.get?_eq_getElem?] at h
      simp only [List.getElem?_cons_zero, Option.some_inj] at h
      subst h
      simp [List.set, List.count_cons]
    | succ j =>
      rw [List.get?_eq_getElem?] at h
      simp only [List.getElem?_cons_succ] at h
      rw [← List.get?_eq_getElem?] at h
      simp only [List.set, List.count_cons]
      have := ih j h
      omega

theorem get?_set_mono {l : List Bool} {j i : Nat} (h : l.get? i = some true) :
    (l.set j true).get? i = some true := by
  rw [List.get?_eq_getElem?] at h ⊢
  by_cases hij : j = i
  · subst hij
    have : j < l.length := (List.getElem?_eq_some_iff.mp h).1
    rw [List.getElem?_set_self this]
  · rw [List.getElem?_set_ne hij, h]
theorem cell_decode {w h i : Nat} (hw : 0 < w) (hi : i < w * h) :
    InBounds w h (i % w, i / w) ∧ cellIndex w (i % w, i / w) = i := by
  refine ⟨⟨Nat.mod_lt i hw, ?_⟩, ?_⟩
  · exact (Nat.div_lt_iff_lt_mul hw).mpr (by rw [Nat.mul_comm] at hi; exact hi)
  · show i / w * w + i % w = i
    rw [Nat.add_comm, Nat.mul_comm]
    exact Nat.mod_add_div i w

theorem floodVisit_cases (pixels : List Nat) (w h x y : Nat) (d : Int × Int)
    (st : List Bool × List (Nat × Nat)) :
    floodVisit pixels w h x y d st = st ∨
    ∃ b : Nat × Nat, InBounds w h b ∧
      ((x : Int) + d.1 = (b.1 : Int)) ∧ ((y : Int) + d.2 = (b.2 : Int)) ∧
      pixels.get? (cellIndex w b) = some 0 ∧
      st.1.get? (cellIndex w b) = some false ∧
      floodVisit pixels w h x y d st = (st.1.set (cellIndex w b) true, st.2 ++ [b]) := by
  simp only [floodVisit]
  by_cases h1 : 0 ≤ (x : Int) + d.1 ∧ (x : Int) + d.1 < (w : Int) ∧
      0 ≤ (y : Int) + d.2 ∧ (y : Int) + d.2 < (h : Int)
  · rw [if_pos h1]
    by_cases h2 : pixels.get? (((y : Int) + d.2).toNat * w + ((x : Int) + d.1).toNat) = some 0 ∧
        st.1.get? (((y : Int) + d.2).toNat * w + ((x : Int) + d.1).toNat) = some false
    · rw [if_pos h2]
      right
      refine ⟨(((x : Int) + d.1).toNat, ((y : Int) + d.2).toNat), ⟨?_, ?_⟩, ?_, ?_, h2.1, h2.2, rfl⟩
      · omega
      · omega
      · omega
      · omega
    · rw [if_neg h2]
      left
      rfl
  · rw [if_neg h1]
    left
    rfl

theorem floodVisit_covers (pixels : List Nat) (w h x y : Nat) (d : Int × Int)
    (st : List Bool × List (Nat × Nat)) (b : Nat × Nat)
    (hlen : st.1.length = pixels.length) (hpl : pixels.length = w * h)
    (hb : InBounds w h b) (hz : ZeroCell pixels w b)
    (hd1 : (x : Int) + d.1 = (b.1 : Int)) (hd2 : (y : Int) + d.2 = (b.2 : Int)) :
    (floodVisit pixels w h x y d st).1.get? (cellIndex w b) = some true := by
  have hidx : cellIndex w b < st.1.length := by
    rw [hlen, hpl]; exact cellIndex_lt hb
  obtain ⟨hb1, hb2⟩ := hb
  have hnx : ((x : Int) + d.1).toNat = b.1 := by omega
  have hny : ((y : Int) + d.2).toNat = b.2 := by omega
  simp only [floodVisit]
  rw [if_pos (by omega : 0 ≤ (x : Int) + d.1 ∧ (x : Int) + d.1 < (w : Int) ∧
      0 ≤ (y : Int) + d.2 ∧ (y : Int) + d.2 < (h : Int))]
  rw [hnx, hny]
  have hcell : (b.2 * w + b.1) = cellIndex w b := rfl
  rw [hcell]
  by_cases h2 : pixels.get? (cellIndex w b) = some 0 ∧
      st.1.get? (cellIndex w b) = some false
  · rw [if_pos h2]
    show (st.1.set (cellIndex w b) true).get? (cellIndex w b) = some true
    rw [List.get?_eq_getElem?, List.getElem?_set_self hidx]
  · rw [if_neg h2]
    cases hv : st.1.get? (cellIndex w b) with
    | none =>
      rw [List.get?_eq_getElem?] at hv
      exact absurd (List.getElem?_eq_none_iff.mp hv) (by omega)
    | some v =>
      cases v with
      | false => exact absurd ⟨hz, hv⟩ h2
      | true => rfl

theorem floodVisit_step (pixels : List Nat) (w h x y : Nat) (d : Int × Int)
    (st : List Bool × List (Nat × Nat))
    (hlen : st.1.length = pixels.length) (hpl : pixels.length = w * h)
    (hxy : InBounds w h (x, y)) (hz : ZeroCell pixels w (x, y))
    (hbc : BorderConnected pixels w h (x, y))
    (hadj : ∀ b : Nat × Nat, ((x : Int) + d.1 = (b.1 : Int) ∧ (y : Int) + d.2 = (b.2 : Int)) →
      AdjCell (x, y) b) :
    (floodVisit pixels w h x y d st).1.length = pixels.length ∧
    (∀ i, st.1.get? i = some true → (floodVisit pixels w h x y d st).1.get? i = some true) ∧
    (∀ c ∈ st.2, c ∈ (floodVisit pixels w h x y d st).2) ∧
    (∀ i, (floodVisit pixels w h x y d st).1.get? i = some true →
      st.1.get? i = some true ∨
      ∃ b, InBounds w h b ∧ cellIndex w b = i ∧ BorderConnected pixels w h b ∧
        b ∈ (floodVisit pixels w h x y d st).2) ∧
    (QueueOk w h st → QueueOk w h (floodVisit pixels w h x y d st)) ∧
    (2 * (floodVisit pixels w h x y d st).1.count false +
        (floodVisit pixels w h x y d st).2.length ≤
      2 * st.1.count false + st.2.length) := by
  rcases floodVisit_cases pixels w h x y d st with he | ⟨b, hb, hd1, hd2, hzb, hfb, he⟩
  · rw [he]
    exact ⟨hlen, fun i hi => hi, fun c hc => hc, fun i hi => Or.inl hi, fun q => q,
      Nat.le_refl _⟩
  · rw [he]
    have hidx : cellIndex w b < st.1.length := by
      rw [hlen, hpl]; exact cellIndex_lt hb
    have hbcb : BorderConnected pixels w h b := by
      obtain ⟨s, hsb, hsz, hpath⟩ := hbc
      exact ⟨s, hsb, hsz, hpath.tail ⟨hxy, hb, hz, hzb, hadj b ⟨hd1, hd2⟩⟩⟩
    have hmarked : (st.1.set (cellIndex w b) true).get? (cellIndex w b) = some true := by
      rw [List.get?_eq_getElem?, List.getElem?_set_self hidx]
    refine ⟨?_, ?_, ?_, ?_, ?_, ?_⟩
    · show (st.1.set (cellIndex w b) true).length = pixels.length
      rw [List.length_set]; exact hlen
    · intro i hi
      exact get?_set_mono hi
    · intro c hc
      exact List.mem_append_left _ hc
    · intro i hi
      by_cases hij : i = cellIndex w b
      · subst hij
        exact Or.inr ⟨b, hb, rfl, hbcb, List.mem_append_right _ (List.mem_singleton.mpr rfl)⟩
      · left
        rw [List.get?_eq_getElem?] at hi ⊢
        rw [List.getElem?_set_ne (fun he' => hij he'.symm)] at hi
        exact hi
    · intro hq c hc
      rcases List.mem_append.mp hc with hc | hc
      · obtain ⟨h1, h2⟩ := hq c hc
        exact ⟨h1, get?_set_mono h2⟩
      · rw [List.mem_singleton.mp hc]
        exact ⟨hb, hmarked⟩
    · show 2 * (st.1.set (cellIndex w b) true).count false + (st.2 ++ [b]).length ≤ _
      have := count_false_set st.1 (cellIndex w b) hfb
      rw [List.length_append]
      simp only [List.length_cons, List.length_nil]
      omega
theorem floodVisits_eq (pixels : List Nat) (w h : Nat) (c : Nat × Nat)
    (st : List Bool × List (Nat × Nat)) :
    floodVisits pixels w h c st =
      floodVisit pixels w h c.1 c.2 (0, 1)
        (floodVisit pixels w h c.1 c.2 (0, -1)
          (floodVisit pixels w h c.1 c.2 (1, 0)
            (floodVisit pixels w h c.1 c.2 ((-1 : Int), (0 : Int)) st))) := rfl

theorem floodLoop_succ_cons (pixels : List Nat) (w h fuel : Nat) (m : List Bool)
    (c : Nat × Nat) (rest : List (Nat × Nat)) :
    floodLoop pixels w h (fuel + 1) (m, c :: rest) =
      floodLoop pixels w h fuel (floodVisits pixels w h c (m, rest)) := rfl

theorem adjCell_dirs {a b : Nat × Nat} (h : AdjCell a b) :
    ((a.1 : Int) + (-1) = (b.1 : Int) ∧ (a.2 : Int) + 0 = (b.2 : Int)) ∨
    ((a.1 : Int) + 1 = (b.1 : Int) ∧ (a.2 : Int) + 0 = (b.2 : Int)) ∨
    ((a.1 : Int) + 0 = (b.1 : Int) ∧ (a.2 : Int) + (-1) = (b.2 : Int)) ∨
    ((a.1 : Int) + 0 = (b.1 : Int) ∧ (a.2 : Int) + 1 = (b.2 : Int)) := by
  unfold AdjCell at h
  omega

theorem adjCell_left (x y : Nat) (b : Nat × Nat)
    (h1 : (x : Int) + (-1) = (b.1 : Int)) (h2 : (y : Int) + 0 = (b.2 : Int)) :
    AdjCell (x, y) b := by
  unfold AdjCell
  dsimp only
  omega

theorem adjCell_right (x y : Nat) (b : Nat × Nat)
    (h1 : (x : Int) + 1 = (b.1 : Int)) (h2 : (y : Int) + 0 = (b.2 : Int)) :
    AdjCell (x, y) b := by
  unfold AdjCell
  dsimp only
  omega

theorem adjCell_up (x y : Nat) (b : Nat × Nat)
    (h1 : (x : Int) + 0 = (b.1 : Int)) (h2 : (y : Int) + (-1) = (b.2 : Int)) :
    AdjCell (x, y) b := by
  unfold AdjCell
  dsimp only
  omega

theorem adjCell_down (x y : Nat) (b : Nat × Nat)
    (h1 : (x : Int) + 0 = (b.1 : Int)) (h2 : (y : Int) + 1 = (b.2 : Int)) :
    AdjCell (x, y) b := by
  unfold AdjCell
  dsimp only
  omega

theorem floodStep_inv (pixels : List Nat) (w h : Nat) (hpl : pixels.length = w * h)
    (m : List Bool) (c : Nat × Nat) (rest : List (Nat × Nat))
    (hinv : FloodInv pixels w h (m, c :: rest)) :
    FloodInv pixels w h (floodVisits pixels w h c (m, rest)) ∧
    2 * (floodVisits pixels w h c (m, rest)).1.count false +
        (floodVisits pixels w h c (m, rest)).2.length <
      2 * m.count false + (c :: rest).length ∧
    (∀ i, m.get? i = some true →
      (floodVisits pixels w h c (m, rest)).1.get? i = some true) := by
  obtain ⟨hlen, hq, hsound, hclosed, hseeds⟩ := hinv
  obtain ⟨hc, hm⟩ := hq c (List.mem_cons_self c rest)
  obtain ⟨c', hc', hci, hbc'⟩ := hsound _ hm
  rw [cellIndex_inj hc' hc hci] at hbc'
  have hz : ZeroCell pixels w c := borderConnected_zero hbc'
  have h0len : (m, rest).1.length = pixels.length := hlen
  obtain ⟨L1, M1, Q1, N1, K1, C1r⟩ :=
    floodVisit_step pixels w h c.1 c.2 ((-1 : Int), (0 : Int)) (m, rest) h0len hpl hc hz hbc'
      (fun b hb => adjCell_left c.1 c.2 b hb.1 hb.2)
  obtain ⟨L2, M2, Q2, N2, K2, C2r⟩ :=
    floodVisit_step pixels w h c.1 c.2 (1, 0) _ L1 hpl hc hz hbc'
      (fun b hb => adjCell_right c.1 c.2 b hb.1 hb.2)
  obtain ⟨L3, M3, Q3, N3, K3, C3r⟩ :=
    floodVisit_step pixels w h c.1 c.2 (0, -1) _ L2 hpl hc hz hbc'
      (fun b hb => adjCell_up c.1 c.2 b hb.1 hb.2)
  obtain ⟨L4, M4, Q4, N4, K4, C4r⟩ :=
    floodVisit_step pixels w h c.1 c.2 (0, 1) _ L3 hpl hc hz hbc'
      (fun b hb => adjCell_down c.1 c.2 b hb.1 hb.2)
  rw [floodVisits_eq]
  have hmono : ∀ i, m.get? i = some true →
      (floodVisit pixels w h c.1 c.2 (0, 1)
        (floodVisit pixels w h c.1 c.2 (0, -1)
          (floodVisit pixels w h c.1 c.2 (1, 0)
            (floodVisit pixels w h c.1 c.2 ((-1 : Int), (0 : Int)) (m, rest))))).1.get? i =
        some true :=
    fun i hi => M4 _ (M3 _ (M2 _ (M1 _ hi)))
  have hqsub : ∀ x ∈ rest,
      x ∈ (floodVisit pixels w h c.1 c.2 (0, 1)
        (floodVisit pixels w h c.1 c.2 (0, -1)
          (floodVisit pixels w h c.1 c.2 (1, 0)
            (floodVisit pixels w h c.1 c.2 ((-1 : Int), (0 : Int)) (m, rest))))).2 :=
    fun x hx => Q4 _ (Q3 _ (Q2 _ (Q1 _ hx)))
  refine ⟨⟨L4, ?_, ?_, ?_, ?_⟩, ?_, hmono⟩
  · -- queue soundness
    exact K4 (K3 (K2 (K1 (fun x hx => hq x (List.mem_cons_of_mem c hx)))))
  · -- mark soundness
    intro i hi
    rcases N4 i hi with hi3 | ⟨b, hbin, hbi, hbbc, _⟩
    · rcases N3 i hi3 with hi2 | ⟨b, hbin, hbi, hbbc, _⟩
      · rcases N2 i hi2 with hi1 | ⟨b, hbin, hbi, hbbc, _⟩
        · rcases N1 i hi1 with hi0 | ⟨b, hbin, hbi, hbbc, _⟩
          · exact hsound i hi0
          · exact ⟨b, hbin, hbi, hbbc⟩
        · exact ⟨b, hbin, hbi, hbbc⟩
      · exact ⟨b, hbin, hbi, hbbc⟩
    · exact ⟨b, hbin, hbi, hbbc⟩
  · -- closure
    intro c0 hc0 hm0
    rcases N4 _ hm0 with hi3 | ⟨b, hbin, hbi, _, hbq⟩
    · rcases N3 _ hi3 with hi2 | ⟨b, hbin, hbi, _, hbq⟩
      · rcases N2 _ hi2 with hi1 | ⟨b, hbin, hbi, _, hbq⟩
        · rcases N1 _ hi1 with hi0 | ⟨b, hbin, hbi, _, hbq⟩
          · rcases hclosed c0 hc0 hi0 with hmem | hcl
            · rcases List.mem_cons.mp hmem with hec | hmr
              · -- c0 is the dequeued cell: its flood neighbours end up marked
                refine Or.inr (fun b hstep => ?_)
                obtain ⟨_, hbin, _, hbz, hadj⟩ := hstep
                rcases adjCell_dirs hadj with ⟨e1, e2⟩ | ⟨e1, e2⟩ | ⟨e1, e2⟩ | ⟨e1, e2⟩ <;>
                  rw [hec] at e1 e2
                · exact M4 _ (M3 _ (M2 _
                    (floodVisit_covers pixels w h c.1 c.2 _ _ b h0len hpl hbin hbz e1 e2)))
                · exact M4 _ (M3 _
                    (floodVisit_covers pixels w h c.1 c.2 _ _ b L1 hpl hbin hbz e1 e2))
                · exact M4 _
                    (floodVisit_covers pixels w h c.1 c.2 _ _ b L2 hpl hbin hbz e1 e2)
                · exact floodVisit_covers pixels w h c.1 c.2 _ _ b L3 hpl hbin hbz e1 e2
              · exact Or.inl (hqsub c0 hmr)
            · exact Or.inr (fun b hstep => hmono _ (hcl b hstep))
          · have : b = c0 := cellIndex_inj hbin hc0 hbi
            subst this
            exact Or.inl (Q4 _ (Q3 _ (Q2 _ hbq)))
        · have : b = c0 := cellIndex_inj hbin hc0 hbi
          subst this
          exact Or.inl (Q4 _ (Q3 _ hbq))
      · have : b = c0 := cellIndex_inj hbin hc0 hbi
        subst this
        exact Or.inl (Q4 _ hbq)
    · have : b = c0 := cellIndex_inj hbin hc0 hbi
      subst this
      exact Or.inl hbq
  · -- seed coverage
    exact fun c0 hb hz0 => hmono _ (hseeds c0 hb hz0)
  · -- measure strictly decreases
    have : (m, rest).1.count false = m.count false := rfl
    simp only [List.length_cons]
    have hr : ((m, rest) : List Bool × List (Nat × Nat)).2.length = rest.length := rfl
    omega
theorem floodLoop_succ_nil (pixels : List Nat) (w h fuel : Nat) (m : List Bool) :
    floodLoop pixels w h (fuel + 1) (m, []) = m := rfl

theorem floodLoop_spec (pixels : List Nat) (w h : Nat) (hpl : pixels.length = w * h) :
    ∀ (fuel : Nat) (st : List Bool × List (Nat × Nat)),
      FloodInv pixels w h st → 2 * st.1.count false + st.2.length < fuel →
      FloodInv pixels w h (floodLoop pixels w h fuel st, []) ∧
      (∀ i, st.1.get? i = some true → (floodLoop pixels w h fuel st).get? i = some true) := by
  intro fuel
  induction fuel with
  | zero => intro st _ hlt; omega
  | succ fuel ih =>
    intro st hinv hlt
    obtain ⟨m, q⟩ := st
    cases q with
    | nil =>
      rw [floodLoop_succ_nil]
      exact ⟨hinv, fun i hi => hi⟩
    | cons c rest =>
      rw [floodLoop_succ_cons]
      obtain ⟨hinv', hdec, hmono⟩ := floodStep_inv pixels w h hpl m c rest hinv
      dsimp only at hlt
      have hlt' : 2 * (floodVisits pixels w h c (m, rest)).1.count false +
          (floodVisits pixels w h c (m, rest)).2.length < fuel := by
        simp only [List.length_cons] at hlt hdec
        omega
      obtain ⟨hfin, hmono2⟩ := ih (floodVisits pixels w h c (m, rest)) hinv' hlt'
      exact ⟨hfin, fun i hi => hmono2 i (hmono i hi)⟩

theorem floodFinal_marked (pixels : List Nat) (w h : Nat) (mfin : List Bool)
    (hinv : FloodInv pixels w h (mfin, [])) {c : Nat × Nat}
    (hbc : BorderConnected pixels w h c) : mfin.get? (cellIndex w c) = some true := by
  obtain ⟨hlen, hq, hsound, hclosed, hseeds⟩ := hinv
  obtain ⟨s, hsb, hsz, hpath⟩ := hbc
  induction hpath with
  | refl => exact hseeds s hsb hsz
  | tail hab hstep ihm =>
    rename_i b c'
    rcases hclosed b hstep.1 ihm with hmem | hcl
    · exact absurd hmem (List.not_mem_nil b)
    · exact hcl c' hstep

theorem floodSeed_cases (pixels : List Nat) (w : Nat) (c : Nat × Nat)
    (st : List Bool × List (Nat × Nat)) :
    floodSeed pixels w c st = st ∨
    (pixels.get? (cellIndex w c) = some 0 ∧ st.1.get? (cellIndex w c) = some false ∧
      floodSeed pixels w c st = (st.1.set (cellIndex w c) true, st.2 ++ [c])) := by
  simp only [floodSeed]
  by_cases hg : pixels.get? (c.2 * w + c.1) = some 0 ∧ st.1.get? (c.2 * w + c.1) = some false
  · rw [if_pos hg]
    right
    exact ⟨hg.1, hg.2, rfl⟩
  · rw [if_neg hg]
    left
    rfl

theorem floodSeed_covers (pixels : List Nat) (w h : Nat) (c : Nat × Nat)
    (st : List Bool × List (Nat × Nat)) (hlen : st.1.length = pixels.length)
    (hpl : pixels.length = w * h) (hc : InBounds w h c) (hz : ZeroCell pixels w c) :
    (floodSeed pixels w c st).1.get? (cellIndex w c) = some true := by
  have hidx : cellIndex w c < st.1.length := by
    rw [hlen, hpl]; exact cellIndex_lt hc
  simp only [floodSeed]
  by_cases hg : pixels.get? (c.2 * w + c.1) = some 0 ∧ st.1.get? (c.2 * w + c.1) = some false
  · rw [if_pos hg]
    show (st.1.set (cellIndex w c) true).get? (cellIndex w c) = some true
    rw [List.get?_eq_getElem?, List.getElem?_set_self hidx]
  · rw [if_neg hg]
    cases hv : st.1.get? (c.2 * w + c.1) with
    | none =>
      rw [List.get?_eq_getElem?] at hv
      have := List.getElem?_eq_none_iff.mp hv
      have hci : cellIndex w c = c.2 * w + c.1 := rfl
      exact absurd this (by omega)
    | some v =>
      cases v with
      | false => exact absurd ⟨hz, hv⟩ hg
      | true => exact hv

theorem floodSeed_seedInv (pixels : List Nat) (w h : Nat) (hpl : pixels.length = w * h)
    (c : Nat × Nat) (hcb : OnBorder w h c) (st : List Bool × List (Nat × Nat))
    (hinv : SeedInv pixels w h st) :
    SeedInv pixels w h (floodSeed pixels w c st) ∧
    (∀ i, st.1.get? i = some true → (floodSeed pixels w c st).1.get? i = some true) ∧
    (∀ x ∈ st.2, x ∈ (floodSeed pixels w c st).2) := by
  obtain ⟨hlen, hq, hsound⟩ := hinv
  rcases floodSeed_cases pixels w c st with he | ⟨hz, hf, he⟩
  · rw [he]
    exact ⟨⟨hlen, hq, hsound⟩, fun i hi => hi, fun x hx => hx⟩
  · rw [he]
    have hidx : cellIndex w c < st.1.length := by
      rw [hlen, hpl]; exact cellIndex_lt hcb.1
    have hmarked : (st.1.set (cellIndex w c) true).get? (cellIndex w c) = some true := by
      rw [List.get?_eq_getElem?, List.getElem?_set_self hidx]
    refine ⟨⟨?_, ?_, ?_⟩, ?_, ?_⟩
    · show (st.1.set (cellIndex w c) true).length = pixels.length
      rw [List.length_set]; exact hlen
    · intro x hx
      rcases List.mem_append.mp hx with hx | hx
      · obtain ⟨h1, h2⟩ := hq x hx
        exact ⟨h1, get?_set_mono h2⟩
      · rw [List.mem_singleton.mp hx]
        exact ⟨hcb.1, hmarked⟩
    · intro i hi
      by_cases hij : i = cellIndex w c
      · subst hij
        exact ⟨c, hcb.1, rfl, ⟨c, hcb, hz, Relation.ReflTransGen.refl⟩,
          List.mem_append_right _ (List.mem_singleton.mpr rfl)⟩
      · have hi' : st.1.get? i = some true := by
          rw [List.get?_eq_getElem?] at hi ⊢
          rw [List.getElem?_set_ne (fun he' => hij he'.symm)] at hi
          exact hi
        obtain ⟨c', h1, h2, h3, h4⟩ := hsound i hi'
        exact ⟨c', h1, h2, h3, List.mem_append_left _ h4⟩
    · intro i hi
      exact get?_set_mono hi
    · intro x hx
      exact List.mem_append_left _ hx
theorem seedFoldTop_inv (pixels : List Nat) (w h : Nat) (hpl : pixels.length = w * h)
    (hh : 0 < h) (l : List Nat) (hl : ∀ x ∈ l, x < w) :
    ∀ st : List Bool × List (Nat × Nat), SeedInv pixels w h st →
      SeedInv pixels w h (l.foldl
        (fun st x => floodSeed pixels w (x, h - 1) (floodSeed pixels w (x, 0) st)) st) ∧
      (∀ i, st.1.get? i = some true →
        (l.foldl (fun st x => floodSeed pixels w (x, h - 1) (floodSeed pixels w (x, 0) st))
          st).1.get? i = some true) ∧
      (∀ x ∈ l, ZeroCell pixels w (x, 0) →
        (l.foldl (fun st x => floodSeed pixels w (x, h - 1) (floodSeed pixels w (x, 0) st))
          st).1.get? (cellIndex w (x, 0)) = some true) ∧
      (∀ x ∈ l, ZeroCell pixels w (x, h - 1) →
        (l.foldl (fun st x => floodSeed pixels w (x, h - 1) (floodSeed pixels w (x, 0) st))
          st).1.get? (cellIndex w (x, h - 1)) = some true) := by
  induction l with
  | nil =>
    intro st hinv
    exact ⟨hinv, fun i hi => hi, fun x hx => absurd hx (List.not_mem_nil x),
      fun x hx => absurd hx (List.not_mem_nil x)⟩
  | cons x xs ih =>
    intro st hinv
    have hxw : x < w := hl x (List.mem_cons_self x xs)
    have hb0 : OnBorder w h (x, 0) := ⟨⟨hxw, hh⟩, Or.inr (Or.inr (Or.inl rfl))⟩
    have hb1 : OnBorder w h (x, h - 1) :=
      ⟨⟨hxw, by omega⟩, Or.inr (Or.inr (Or.inr (by show h - 1 + 1 = h; omega)))⟩
    obtain ⟨hinv1, hm1, _⟩ := floodSeed_seedInv pixels w h hpl (x, 0) hb0 st hinv
    obtain ⟨hinv2, hm2, _⟩ :=
      floodSeed_seedInv pixels w h hpl (x, h - 1) hb1 _ hinv1
    obtain ⟨hinvf, hmf, hc0, hc1⟩ := ih (fun y hy => hl y (List.mem_cons_of_mem x hy)) _ hinv2
    rw [List.foldl_cons]
    refine ⟨hinvf, fun i hi => hmf i (hm2 i (hm1 i hi)), ?_, ?_⟩
    · intro y hy hz
      rcases List.mem_cons.mp hy with hyx | hyxs
      · subst hyx
        exact hmf _ (hm2 _
          (floodSeed_covers pixels w h (y, 0) st hinv.1 hpl ⟨hxw, hh⟩ hz))
      · exact hc0 y hyxs hz
    · intro y hy hz
      rcases List.mem_cons.mp hy with hyx | hyxs
      · subst hyx
        exact hmf _
          (floodSeed_covers pixels w h (y, h - 1) _ hinv1.1 hpl ⟨hxw, by omega⟩ hz)
      · exact hc1 y hyxs hz

theorem seedFoldSide_inv (pixels : List Nat) (w h : Nat) (hpl : pixels.length = w * h)
    (hw : 0 < w) (l : List Nat) (hl : ∀ y ∈ l, y < h) :
    ∀ st : List Bool × List (Nat × Nat), SeedInv pixels w h st →
      SeedInv pixels w h (l.foldl
        (fun st y => floodSeed pixels w (w - 1, y) (floodSeed pixels w (0, y) st)) st) ∧
      (∀ i, st.1.get? i = some true →
        (l.foldl (fun st y => floodSeed pixels w (w - 1, y) (floodSeed pixels w (0, y) st))
          st).1.get? i = some true) ∧
      (∀ y ∈ l, ZeroCell pixels w (0, y) →
        (l.foldl (fun st y => floodSeed pixels w (w - 1, y) (floodSeed pixels w (0, y) st))
          st).1.get? (cellIndex w (0, y)) = some true) ∧
      (∀ y ∈ l, ZeroCell pixels w (w - 1, y) →
        (l.foldl (fun st y => floodSeed pixels w (w - 1, y) (floodSeed pixels w (0, y) st))
          st).1.get? (cellIndex w (w - 1, y)) = some true) := by
  induction l with
  | nil =>
    intro st hinv
    exact ⟨hinv, fun i hi => hi, fun y hy => absurd hy (List.not_mem_nil y),
      fun y hy => absurd hy (List.not_mem_nil y)⟩
  | cons y ys ih =>
    intro st hinv
    have hyh : y < h := hl y (List.mem_cons_self y ys)
    have hb0 : OnBorder w h (0, y) := ⟨⟨hw, hyh⟩, Or.inl rfl⟩
    have hb1 : OnBorder w h (w - 1, y) :=
      ⟨⟨by omega, hyh⟩, Or.inr (Or.inl (by show w - 1 + 1 = w; omega))⟩
    obtain ⟨hinv1, hm1, _⟩ := floodSeed_seedInv pixels w h hpl (0, y) hb0 st hinv
    obtain ⟨hinv2, hm2, _⟩ :=
      floodSeed_seedInv pixels w h hpl (w - 1, y) hb1 _ hinv1
    obtain ⟨hinvf, hmf, hc0, hc1⟩ := ih (fun z hz => hl z (List.mem_cons_of_mem y hz)) _ hinv2
    rw [List.foldl_cons]
    refine ⟨hinvf, fun i hi => hmf i (hm2 i (hm1 i hi)), ?_, ?_⟩
    · intro z hz hz0
      rcases List.mem_cons.mp hz with hzy | hzys
      · subst hzy
        exact hmf _ (hm2 _
          (floodSeed_covers pixels w h (0, z) st hinv.1 hpl ⟨hw, hyh⟩ hz0))
      · exact hc0 z hzys hz0
    · intro z hz hz0
      rcases List.mem_cons.mp hz with hzy | hzys
      · subst hzy
        exact hmf _
          (floodSeed_covers pixels w h (w - 1, z) _ hinv1.1 hpl ⟨by omega, hyh⟩ hz0)
      · exact hc1 z hzys hz0

theorem floodSeeds_spec (pixels : List Nat) (w h : Nat) (hpl : pixels.length = w * h)
    (hw : 0 < w) (hh : 0 < h) :
    SeedInv pixels w h (floodSeeds pixels w h) ∧
    SeedsMarked pixels w h (floodSeeds pixels w h).1 := by
  have hinit : SeedInv pixels w h (List.replicate pixels.length false, []) := by
    refine ⟨List.length_replicate _ _, fun c hc => absurd hc (List.not_mem_nil c), ?_⟩
    intro i hi
    rw [List.get?_eq_getElem?, List.getElem?_replicate] at hi
    split at hi
    · exact Bool.noConfusion (Option.some_inj.mp hi)
    · exact Option.noConfusion hi
  obtain ⟨hinv1, _, ht0, ht1⟩ := seedFoldTop_inv pixels w h hpl hh (List.range w)
    (fun x hx => List.mem_range.mp hx) _ hinit
  obtain ⟨hinv2, hm2, hs0, hs1⟩ := seedFoldSide_inv pixels w h hpl hw (List.range h)
    (fun y hy => List.mem_range.mp hy) _ hinv1
  have hfs : floodSeeds pixels w h = (List.range h).foldl
      (fun st y => floodSeed pixels w (w - 1, y) (floodSeed pixels w (0, y) st))
      ((List.range w).foldl
        (fun st x => floodSeed pixels w (x, h - 1) (floodSeed pixels w (x, 0) st))
        (List.replicate pixels.length false, [])) := rfl
  rw [hfs]
  refine ⟨hinv2, ?_⟩
  intro c hcb hz
  obtain ⟨⟨hc1, hc2⟩, hdisj⟩ := hcb
  rcases hdisj with h0 | hw1 | hy0 | hyh
  · -- left column
    have hce : c = (0, c.2) := Prod.ext h0 rfl
    rw [hce] at hz ⊢
    exact hs0 c.2 (List.mem_range.mpr hc2) hz
  · -- right column
    have hce : c = (w - 1, c.2) := Prod.ext (by omega) rfl
    rw [hce] at hz ⊢
    exact hs1 c.2 (List.mem_range.mpr hc2) hz
  · -- top row
    have hce : c = (c.1, 0) := Prod.ext rfl hy0
    rw [hce] at hz ⊢
    exact hm2 _ (ht0 c.1 (List.mem_range.mpr hc1) hz)
  · -- bottom row
    have hce : c = (c.1, h - 1) := Prod.ext rfl (by omega)
    rw [hce] at hz ⊢
    exact hm2 _ (ht1 c.1 (List.mem_range.mpr hc1) hz)

theorem seedInv_floodInv (pixels : List Nat) (w h : Nat)
    (st : List Bool × List (Nat × Nat)) (hinv : SeedInv pixels w h st)
    (hsm : SeedsMarked pixels w h st.1) : FloodInv pixels w h st := by
  obtain ⟨hlen, hq, hsound⟩ := hinv
  refine ⟨hlen, hq, fun i hi => ?_, ?_, hsm⟩
  · obtain ⟨c, h1, h2, h3, _⟩ := hsound i hi
    exact ⟨c, h1, h2, h3⟩
  · intro c hc hm
    obtain ⟨c', hc', hci, _, hcq⟩ := hsound _ hm
    have he : c' = c := cellIndex_inj hc' hc hci
    exact Or.inl (he ▸ hcq)

theorem findEdgeBackground_spec (pixels : List Nat) (w h : Nat)
    (hpl : pixels.length = w * h) (hw : 0 < w) (hh : 0 < h) :
    (findEdgeBackground pixels w h).length = pixels.length ∧
    ∀ c : Nat × Nat, InBounds w h c →
      ((findEdgeBackground pixels w h).get? (cellIndex w c) = some true ↔
        ZeroCell pixels w c ∧ BorderConnected pixels w h c) := by
  obtain ⟨hsi, hsm⟩ := floodSeeds_spec pixels w h hpl hw hh
  have hfi := seedInv_floodInv pixels w h _ hsi hsm
  have hfuel : 2 * (floodSeeds pixels w h).1.count false + (floodSeeds pixels w h).2.length <
      2 * (floodSeeds pixels w h).1.length + (floodSeeds pixels w h).2.length + 1 := by
    have := List.count_le_length false (floodSeeds pixels w h).1
    omega
  obtain ⟨hfin, _⟩ := floodLoop_spec pixels w h hpl _ _ hfi hfuel
  have hfe : findEdgeBackground pixels w h = floodLoop pixels w h
      (2 * (floodSeeds pixels w h).1.length + (floodSeeds pixels w h).2.length + 1)
      (floodSeeds pixels w h) := rfl
  rw [hfe]
  refine ⟨hfin.1, ?_⟩
  intro c hc
  constructor
  · intro hm
    obtain ⟨c', hc', hci, hbc⟩ := hfin.2.2.1 _ hm
    have he : c' = c := cellIndex_inj hc' hc hci
    rw [he] at hbc
    exact ⟨borderConnected_zero hbc, hbc⟩
  · intro ⟨_, hbc⟩
    exact floodFinal_marked pixels w h _ hfin hbc
theorem mkRgbaInto_succ (total count : Nat) (f : Nat → Nat × Nat × Nat × Nat) :
    mkRgbaInto total (count + 1) f =
      ((((mkRgbaInto total count f).set (count * 4) (f count).1).set
          (count * 4 + 1) (f count).2.1).set
        (count * 4 + 2) (f count).2.2.1).set (count * 4 + 3) (f count).2.2.2 := by
  unfold mkRgbaInto
  rw [List.range_succ, List.foldl_append]
  rfl

theorem mkRgbaInto_get3 (total count : Nat) (f : Nat → Nat × Nat × Nat × Nat)
    (htot : count * 4 ≤ total) :
    ∀ i, i < count → (mkRgbaInto total count f).get? (i * 4 + 3) = some (f i).2.2.2 := by
  induction count with
  | zero => intro i hi; omega
  | succ count ih =>
    intro i hi
    rw [mkRgbaInto_succ]
    by_cases hic : i = count
    · subst hic
      have hlen : ((((mkRgbaInto total i f).set (i * 4) (f i).1).set
          (i * 4 + 1) (f i).2.1).set (i * 4 + 2) (f i).2.2.1).length = total := by
        simp only [List.length_set]
        exact mkRgbaInto_length total i f
      rw [List.get?_eq_getElem?, List.getElem?_set_self (by rw [hlen]; omega)]
    · have hi' : i < count := by omega
      rw [List.get?_eq_getElem?,
        List.getElem?_set_ne (by omega : count * 4 + 3 ≠ i * 4 + 3),
        List.getElem?_set_ne (by omega : count * 4 + 2 ≠ i * 4 + 3),
        List.getElem?_set_ne (by omega : count * 4 + 1 ≠ i * 4 + 3),
        List.getElem?_set_ne (by omega : count * 4 ≠ i * 4 + 3),
        ← List.get?_eq_getElem?]
      exact ih (by omega) i hi'

theorem tradRaw_wf (d : List Nat) (t : TradParsed) (ht : tradRaw d = some t) :
    t.pixels.length = t.width * t.height ∧ 0 < t.width ∧ 0 < t.height := by
  simp only [tradRaw] at ht
  split at ht
  · exact Option.noConfusion ht
  split at ht
  · exact Option.noConfusion ht
  generalize hpos : (if readU32 d 66 ≠ 0 then 78 + 56 else 78 : Nat) = pos at ht
  split at ht
  · exact Option.noConfusion ht
  split at ht
  · exact Option.noConfusion ht
  rename_i hdims0
  split at ht
  · exact Option.noConfusion ht
  rename_i hdims1
  split at ht
  · exact Option.noConfusion ht
  rw [Option.some_inj] at ht
  subst ht
  dsimp only
  refine ⟨planarToChunky_length _ _ _ _ _ _, ?_, ?_⟩ <;> omega

theorem mkTradBitmap_alpha (t : TradParsed) (i : Nat) (hi : i < t.pixels.length)
    (hplen : t.pixels.length = t.width * t.height) :
    (mkTradBitmap t).rgba.get? (i * 4 + 3) =
      some (if byteAt t.pixels i = 0 ∧
          (findEdgeBackground t.pixels t.width t.height).getD i false then 0 else 255) := by
  have htot : t.pixels.length * 4 ≤ t.width * t.height * 4 := by omega
  exact mkRgbaInto_get3 (t.width * t.height * 4) t.pixels.length
    (fun i =>
      let idx := byteAt t.pixels i
      let c := if idx < (tradPalette t).length then (tradPalette t).getD idx (0, 0, 0)
        else (0, 0, 0)
      let a := if idx = 0 ∧ (findEdgeBackground t.pixels t.width t.height).getD i false then 0
        else 255
      (c.1, c.2.1, c.2.2, a)) htot i hi

/-- C3: for every successfully parsed Traditional icon, an output pixel's
alpha byte is 0 exactly when its palette index is 0 and it is connected
to the image border by a 4-connected path of index-0 pixels (the
`BorderConnected` predicate, stated from the claim's words); every pixel
is given alpha 0 or alpha 255, so all other pixels - including interior
index-0 pixels not reaching the border - get alpha 255. -/
theorem c3_traditional_alpha (d : List Nat) (bm : Bitmap)
    (h : tryTraditional d = some bm) :
    ∃ t, tradRaw d = some t ∧ bm = mkTradBitmap t ∧
      ∀ c : Nat × Nat, InBounds t.width t.height c →
        (bm.rgba.get? (cellIndex t.width c * 4 + 3) = some 0 ↔
          ZeroCell t.pixels t.width c ∧
            BorderConnected t.pixels t.width t.height c) ∧
        (bm.rgba.get? (cellIndex t.width c * 4 + 3) = some 0 ∨
          bm.rgba.get? (cellIndex t.width c * 4 + 3) = some 255) := by
  unfold tryTraditional at h
  cases ht : tradRaw d with
  | none => rw [ht] at h; exact Option.noConfusion h
  | some t =>
    rw [ht] at h
    simp only [Option.map_some'] at h
    rw [Option.some_inj] at h
    subst h
    obtain ⟨hplen, hw, hh⟩ := tradRaw_wf d t ht
    refine ⟨t, rfl, rfl, ?_⟩
    intro c hc
    have hidx : cellIndex t.width c < t.pixels.length := by
      rw [hplen]; exact cellIndex_lt hc
    obtain ⟨helen, hiff⟩ := findEdgeBackground_spec t.pixels t.width t.height hplen hw hh
    have hval := mkTradBitmap_alpha t (cellIndex t.width c) hidx hplen
    have hbyte : byteAt t.pixels (cellIndex t.width c) = 0 ↔ ZeroCell t.pixels t.width c := by
      unfold byteAt ZeroCell
      rw [List.getD_eq_getElem?_getD, ← List.get?_eq_getElem?]
      cases hx : t.pixels.get? (cellIndex t.width c) with
      | none =>
        rw [List.get?_eq_getElem?] at hx
        exact absurd (List.getElem?_eq_none_iff.mp hx) (by omega)
      | some v =>
        simp only [Option.getD_some]
        exact ⟨fun hv => by rw [hv], fun hv => Option.some_inj.mp hv⟩
    have hedge : (findEdgeBackground t.pixels t.width t.height).getD
          (cellIndex t.width c) false = true ↔
        (findEdgeBackground t.pixels t.width t.height).get? (cellIndex t.width c) =
          some true := by
      rw [List.getD_eq_getElem?_getD, ← List.get?_eq_getElem?]
      cases hx : (findEdgeBackground t.pixels t.width t.height).get? (cellIndex t.width c) with
      | none =>
        rw [List.get?_eq_getElem?] at hx
        have := List.getElem?_eq_none_iff.mp hx
        rw [helen] at this
        exact absurd this (by omega)
      | some v =>
        simp only [Option.getD_some]
        exact ⟨fun hv => by rw [hv], fun hv => Option.some_inj.mp hv⟩
    by_cases hcond : byteAt t.pixels (cellIndex t.width c) = 0 ∧
        (findEdgeBackground t.pixels t.width t.height).getD (cellIndex t.width c) false
    · rw [if_pos hcond] at hval
      constructor
      · constructor
        · intro _
          have hbc := (hiff c hc).mp (hedge.mp hcond.2)
          exact hbc
        · intro _
          exact hval
      · exact Or.inl hval
    · rw [if_neg hcond] at hval
      constructor
      · constructor
        · intro h0
          rw [hval] at h0
          exact absurd (Option.some_inj.mp h0) (by omega)
        · intro ⟨hz, hbc⟩
          exact absurd ⟨hbyte.mpr hz, hedge.mpr ((hiff c hc).mpr ⟨hz, hbc⟩)⟩ hcond
      · exact Or.inr hval
/-- C3 witness: the claim theorem applied to the concrete 108-byte
Traditional input (5x5, border of index 0, ring of index 1, one interior
index-0 cell), with the parse hypothesis discharged by evaluation. -/
theorem c3_witness :
    tryTraditional tradInput = some (mkTradBitmap ⟨5, 5, 1, false,
      [0, 0, 0, 0, 0, 0, 1, 1, 1, 0, 0, 1, 0, 1, 0, 0, 1, 1, 1, 0, 0, 0, 0, 0, 0]⟩) ∧
    (∃ t, tradRaw tradInput = some t ∧
      mkTradBitmap ⟨5, 5, 1, false,
        [0, 0, 0, 0, 0, 0, 1, 1, 1, 0, 0, 1, 0, 1, 0, 0, 1, 1, 1, 0, 0, 0, 0, 0, 0]⟩ =
        mkTradBitmap t ∧
      ∀ c : Nat × Nat, InBounds t.width t.height c →
        ((mkTradBitmap ⟨5, 5, 1, false,
            [0, 0, 0, 0, 0, 0, 1, 1, 1, 0, 0, 1, 0, 1, 0, 0, 1, 1, 1, 0,
             0, 0, 0, 0, 0]⟩).rgba.get? (cellIndex t.width c * 4 + 3) = some 0 ↔
          ZeroCell t.pixels t.width c ∧
            BorderConnected t.pixels t.width t.height c) ∧
        ((mkTradBitmap ⟨5, 5, 1, false,
            [0, 0, 0, 0, 0, 0, 1, 1, 1, 0, 0, 1, 0, 1, 0, 0, 1, 1, 1, 0,
             0, 0, 0, 0, 0]⟩).rgba.get? (cellIndex t.width c * 4 + 3) = some 0 ∨
          (mkTradBitmap ⟨5, 5, 1, false,
            [0, 0, 0, 0, 0, 0, 1, 1, 1, 0, 0, 1, 0, 1, 0, 0, 1, 1, 1, 0,
             0, 0, 0, 0, 0]⟩).rgba.get? (cellIndex t.width c * 4 + 3) = some 255)) := by
  have hp : tryTraditional tradInput = some (mkTradBitmap ⟨5, 5, 1, false,
      [0, 0, 0, 0, 0, 0, 1, 1, 1, 0, 0, 1, 0, 1, 0, 0, 1, 1, 1, 0, 0, 0, 0, 0, 0]⟩) := by
    decide
  exact ⟨hp, c3_traditional_alpha tradInput _ hp⟩

end AmiFuse
